import Mathlib

/-!
# Namecoin client: name registration logic of `src/qt/walletmodel.cpp`

A shallow embedding of the name-registration part of `WalletModel`
(`sendPendingNameFirstUpdates`, `nameFirstUpdateCreateTx`, `nameAvailable`,
`nameNew`, `nameFirstUpdatePrepare`) together with theorems about it.

Conventions of the embedding:

* `std::vector<unsigned char>` is a list of byte values, `uint256` / `uint160`
  are natural numbers, `int` / `int64` are integers (wrapped explicitly where
  the arithmetic of the source can overflow).
* `std::map` is an association list kept in iteration order; `mapFind`,
  `mapReplace`, `mapSet` are `find`, assignment through an iterator and
  `operator[]` assignment.
* Functions of the wallet, the chain index and the script codec that
  `walletmodel.cpp` calls but does not define are fields of `Env`.
* Every call to a state-changing collaborator is recorded in a list of
  `Call`s returned next to the new state.
-/

namespace Namecoin

/-- Byte vector, `std::vector<unsigned char>`. -/
abbrev Vch := List Nat

/-- A 256-bit hash (transaction id). -/
abbrev uint256 := Nat

/-- A 160-bit hash. -/
abbrev uint160 := Nat

/-- One element appended to a `CScript` by `operator<<`: an opcode, a pushed
byte vector, or a pushed 160-bit hash. -/
inductive ScriptItem where
  | op (code : Nat)
  | push (data : Vch)
  | pushHash (h : uint160)
  deriving DecidableEq, Repr

/-- Script, `CScript`: the sequence of items appended to it. -/
abbrev CScript := List ScriptItem

/-- Transaction output, `CTxOut`. -/
structure CTxOut where
  nValue : Int
  scriptPubKey : CScript
  deriving DecidableEq, Repr

/-- Transaction input, `CTxIn`: the outpoint it spends. -/
structure CTxIn where
  prevoutHash : uint256
  prevoutN : Int
  deriving DecidableEq, Repr

/-- Wallet transaction, `CWalletTx`: version, inputs, outputs and the block it
is recorded in (`hashBlock`, 0 when in no block). -/
structure CWalletTx where
  nVersion : Int
  vin : List CTxIn
  vout : List CTxOut
  hashBlock : uint256
  deriving DecidableEq, Repr

/-- The default-constructed `CWalletTx()`. -/
def CWalletTx.null : CWalletTx :=
  { nVersion := 1, vin := [], vout := [], hashBlock := 0 }

/-- Value type of `mapMyNameFirstUpdate`; the fields are the ones
`walletmodel.cpp` reads and writes. -/
structure PreparedNameFirstUpdate where
  rand : Nat
  vchData : Vch
  wtx : CWalletTx
  deriving DecidableEq, Repr

/-- The default-constructed entry that `operator[]` inserts for a new key. -/
def PreparedNameFirstUpdate.null : PreparedNameFirstUpdate :=
  { rand := 0, vchData := [], wtx := CWalletTx.null }

/-- Lookup `std::map::find`: the value under the first occurrence of `k`. -/
def mapFind {K V : Type} [DecidableEq K] : List (K × V) → K → Option V
  | [], _ => none
  | (k', v) :: m, k => if k' = k then some v else mapFind m k

/-- Assignment through an iterator obtained by `find`: replaces the value of
the first occurrence of `k`, leaving the position of the entry unchanged. -/
def mapReplace {K V : Type} [DecidableEq K] : List (K × V) → K → V → List (K × V)
  | [], _, _ => []
  | (k', v') :: m, k, v =>
    if k' = k then (k', v) :: m else (k', v') :: mapReplace m k v

/-- Assignment `m[k] = v`: replaces the value of an existing key, or inserts
the key before the first greater key (`lt` is the key order of the map). -/
def mapSet {K V : Type} [DecidableEq K] (lt : K → K → Bool) :
    List (K × V) → K → V → List (K × V)
  | [], k, v => [(k, v)]
  | (k', v') :: m, k, v =>
    if k' = k then (k, v) :: m
    else if lt k k' then (k, v) :: (k', v') :: m
    else (k', v') :: mapSet lt m k v

/-- Lexicographic order of byte vectors, `operator<` of `std::vector`. -/
def vchLt : Vch → Vch → Bool
  | [], [] => false
  | [], _ :: _ => true
  | _ :: _, [] => false
  | a :: as, b :: bs => if a < b then true else if b < a then false else vchLt as bs

/-- Order of `uint256` / `uint160` keys. -/
def hashLt (a b : Nat) : Bool := decide (a < b)

/-- The wallet `CWallet` as far as `walletmodel.cpp` touches it: the
transaction map `mapWallet` and the pool of unused keys. -/
structure CWallet where
  mapWallet : List (uint256 × CWalletTx)
  keyPool : List Vch
  deriving DecidableEq, Repr

/-- Reserved change key, `CReserveKey`: the key taken from the pool, if any. -/
abbrev CReserveKey := Option Vch

/-- Entry of the name index, `CNameIndex`: the disk position of the
transaction (the only field `walletmodel.cpp` reads). -/
structure CNameIndex where
  txPos : Nat
  deriving DecidableEq, Repr

/-- Result of `CreateTransactionWithInputTx`: success flag, the transaction
built, the fee it requires and the state of the reserve key. -/
structure CreateTxResult where
  ok : Bool
  wtx : CWalletTx
  nFeeRequired : Int
  reservekey : CReserveKey

/-- Constants and collaborator functions that `walletmodel.cpp` uses but that
are defined elsewhere (namecoin.h, wallet, chain index, script codec). -/
structure Env where
  /-- Minimum depth of the `name_new` transaction before `name_firstupdate`. -/
  MIN_FIRSTUPDATE_DEPTH : Int
  CENT : Int
  MIN_AMOUNT : Int
  NAMECOIN_TX_VERSION : Int
  OP_NAME_NEW : Nat
  OP_NAME_FIRSTUPDATE : Nat
  OP_2DROP : Nat
  OP_RETURN : Nat
  /-- Height of the best block, `pindexBest->nHeight`. -/
  pindexBestHeight : Int
  GetNetworkFee : Int → Int
  /-- Lookup `GetTxOfName(dbName, vchName, tx)`: the live transaction of a name. -/
  GetTxOfName : Vch → Option CWalletTx
  /-- Depth `CMerkleTx::GetDepthInMainChain()` of a wallet transaction. -/
  GetDepthInMainChain : CWalletTx → Int
  /-- Value that `it2->second.GetDepthInMainChain()` yields when `it2` is the
  past-the-end iterator of `mapWallet` (not defined by the language: whatever
  the memory behind the map header holds). -/
  endDepth : Int
  /-- Position on which `mi++` lands when `mi` is the past-the-end iterator of
  a `mapMyNameFirstUpdate` of the given (non-zero) size, counted from the
  first entry (not defined by the language: the tree of the standard library
  steps from its header node back into the map, onto the last entry or the
  one before it). Positions beyond the last entry count as the last entry. -/
  endIncrement : Nat → Nat
  Hash160 : Vch → uint160
  /-- Constructor `uint160(const std::vector<unsigned char>&)`. -/
  uint160OfVch : Vch → uint160
  /-- Bytes `CBigNum(rand).getvch()`. -/
  getvch : Nat → Vch
  DecodeNameScript : CScript → Option (Nat × List Vch)
  /-- Script built by `CScript::SetBitcoinAddress` for a public key. -/
  SetBitcoinAddress : Vch → CScript
  IndexOfNameOutput : CWalletTx → Int
  GetHash : CWalletTx → uint256
  CheckTransaction : CWalletTx → Bool
  FormatMoney : Int → String
  /-- Call `CWallet::GetKeyFromKeyPool`: the key and the pool left. -/
  GetKeyFromKeyPool : List Vch → Vch × List Vch
  /-- Call `CReserveKey::KeepKey`: removes the reserved key for good. -/
  KeepKey : List Vch → CReserveKey → List Vch
  /-- Call `CWallet::CommitTransaction(wtx, reservekey)`: success flag and the
  transaction map afterwards. -/
  CommitTransaction : List (uint256 × CWalletTx) → CWalletTx → Bool × List (uint256 × CWalletTx)
  /-- Call `CWallet::SendMoney(scriptPubKey, nValue, wtx, fAskFee)`: error
  string (empty on success), the transaction created, the wallet afterwards. -/
  SendMoney : CWallet → CScript → Int → CWalletTx → String × CWalletTx × CWallet
  /-- Call `CreateTransactionWithInputTx(vecSend, wtxIn, nTxOut, wtx, reservekey, nFeeRequired)`. -/
  CreateTransactionWithInputTx :
    CWallet → List (CScript × Int) → CWalletTx → Int → CWalletTx → CreateTxResult
  GetBalance : CWallet → Int
  /-- Read `CNameDB::ReadName(vchName, vtxPos)`: `none` when it returns false. -/
  ReadName : Vch → Option (List CNameIndex)
  /-- Read `CTransaction::ReadFromDisk(txPos)`: success flag. -/
  ReadFromDisk : Nat → Bool
  /-- Test `CDiskTxPos::IsNull()`. -/
  IsNull : Nat → Bool
  /-- Read `GetValueOfTxPos(txPos, vchValue, hash, nHeight)`: value, hash and
  height, `none` when it returns false. -/
  GetValueOfTxPos : Nat → Option (Vch × uint256 × Int)
  GetDisplayExpirationDepth : Int → Int

/-- A call to a state-changing collaborator, as recorded in the call log. For
`CommitTransaction` and `GetDepthInMainChain` the name of the pending entry
under examination is recorded as well; for `GetDepthInMainChain` the second
component is the wallet transaction the iterator `it2` points to, `none` for
the past-the-end iterator. `IncrementEnd` is an `mi++` applied to the
past-the-end iterator of `mapMyNameFirstUpdate`; `NeverReturns` closes the log
of a run that does not return. -/
inductive Call where
  | EraseNameFirstUpdate (vchName : Vch)
  | WriteNameFirstUpdate (vchName : Vch) (wtxInHash : uint256) (rand : Nat)
      (vchData : Vch) (wtx : CWalletTx)
  | CommitTransaction (vchName : Vch) (wtx : CWalletTx) (ok : Bool)
  | GetDepthInMainChain (vchName : Vch) (it2 : Option CWalletTx)
  | IncrementEnd
  | SendMoney (scriptPubKey : CScript) (nValue : Int) (strError : String)
  | NeverReturns
  deriving DecidableEq, Repr

/-- The global maps and the wallet. -/
structure State where
  /-- Pending store `mapMyNameFirstUpdate`. -/
  mapMyNameFirstUpdate : List (Vch × PreparedNameFirstUpdate)
  mapMyNameHashes : List (uint160 × Vch)
  /-- Map `mapMyNames`: name to the id of its originating transaction. -/
  mapMyNames : List (Vch × uint256)
  /-- Map `mapNamePending`: name to the ids of its pending operations. -/
  mapNamePending : List (Vch × List uint256)
  wallet : CWallet
  deriving DecidableEq, Repr

/-- Outcome of the loop of `sendPendingNameFirstUpdates` over the entries from
the iterator `mi` on: the entries left in the map, the wallet transaction map
and the calls made. -/
structure SendResult where
  kept : List (Vch × PreparedNameFirstUpdate)
  mapWallet : List (uint256 × CWalletTx)
  calls : List Call
  deriving DecidableEq, Repr

/-- One pass of the loop of `sendPendingNameFirstUpdates` (walletmodel.cpp
110-174), from the iterator `mi` to the end of the map. The list is the part
of `mapMyNameFirstUpdate` from `mi` to the end, `mw` is `wallet->mapWallet`.

When the wallet transaction is missing the source erases the entry
(`erase(mi++)`), sets `fSkip`, and then still evaluates
`it2->second.GetDepthInMainChain()` through the past-the-end iterator `it2`;
the value read is `env.endDepth`, and when it is below the threshold `mi` is
incremented a second time before `continue`. The flag `skip` is that pending
second `mi++`: the entry `mi` points to is stepped over unexamined.
When that second `mi++` meets the end iterator the pass is over with
`Call.IncrementEnd` as its last call; where the iterator lands then, and how
the loop goes on, is in `sendPasses`. -/
def sendLoop (env : Env) (mapMyNames : List (Vch × uint256)) :
    Bool → List (Vch × PreparedNameFirstUpdate) → List (uint256 × CWalletTx) → SendResult
  | false, [], mw => { kept := [], mapWallet := mw, calls := [] }
  | true, [], mw => { kept := [], mapWallet := mw, calls := [Call.IncrementEnd] }
  | true, skipped :: rest, mw =>
    let r := sendLoop env mapMyNames false rest mw
    { r with kept := skipped :: r.kept }
  | false, (vchName, e) :: rest, mw =>
    match mapFind mapMyNames vchName with
    | none =>
      let r := sendLoop env mapMyNames false rest mw
      { r with calls := Call.EraseNameFirstUpdate vchName :: r.calls }
    | some wtxInHash =>
      match mapFind mw wtxInHash with
      | none =>
        let r := sendLoop env mapMyNames
          (decide (env.endDepth < env.MIN_FIRSTUPDATE_DEPTH)) rest mw
        { r with
          calls := Call.EraseNameFirstUpdate vchName ::
            Call.GetDepthInMainChain vchName none :: r.calls }
      | some wtxIn =>
        if env.GetDepthInMainChain wtxIn < env.MIN_FIRSTUPDATE_DEPTH then
          let r := sendLoop env mapMyNames false rest mw
          { r with
            kept := (vchName, e) :: r.kept
            calls := Call.GetDepthInMainChain vchName (some wtxIn) :: r.calls }
        else
          let c := env.CommitTransaction mw e.wtx
          let r := sendLoop env mapMyNames false rest c.2
          { r with
            calls := Call.GetDepthInMainChain vchName (some wtxIn) ::
              Call.CommitTransaction vchName e.wtx c.1 ::
              Call.EraseNameFirstUpdate vchName :: r.calls }

/-- The whole loop of `sendPendingNameFirstUpdates`: passes of `sendLoop`,
each over the entries from `mi` to the end, `before` being the entries of the
map in front of `mi`.

A pass that ends by incrementing the past-the-end iterator (line 139 after
the `erase(mi++)` of line 134 removed the last entry) does not end the loop:
the condition `mi != mapMyNameFirstUpdate.end()` is tested on the iterator
that the increment produced. With the map empty the increment never returns
(the header node of the empty tree points to itself), which ends the log with
`Call.NeverReturns`. Otherwise the iterator is back on an entry of the map,
at position `env.endIncrement`, and the loop examines the entries from there
on again in a further pass.

The first argument bounds the number of further passes. Every such pass
follows an erase, so the size of the map is enough (`sendPasses_fuel`). -/
def sendPasses (env : Env) (mapMyNames : List (Vch × uint256)) :
    Nat → List (Vch × PreparedNameFirstUpdate) → List (Vch × PreparedNameFirstUpdate) →
    List (uint256 × CWalletTx) → SendResult
  | 0, before, rest, mw =>
    let r := sendLoop env mapMyNames false rest mw
    { r with kept := before ++ r.kept }
  | fuel + 1, before, rest, mw =>
    let r := sendLoop env mapMyNames false rest mw
    if Call.IncrementEnd ∈ r.calls then
      if before ++ r.kept = [] then
        { kept := [], mapWallet := r.mapWallet, calls := r.calls ++ [Call.NeverReturns] }
      else
        let i := min (env.endIncrement (before ++ r.kept).length)
          ((before ++ r.kept).length - 1)
        let r2 := sendPasses env mapMyNames fuel ((before ++ r.kept).take i)
          ((before ++ r.kept).drop i) r.mapWallet
        { r2 with calls := r.calls ++ r2.calls }
    else { r with kept := before ++ r.kept }

/-- The function `WalletModel::sendPendingNameFirstUpdates`: the state
afterwards and the calls made. -/
def sendPendingNameFirstUpdates (env : Env) (s : State) : State × List Call :=
  let r := sendPasses env s.mapMyNames s.mapMyNameFirstUpdate.length []
    s.mapMyNameFirstUpdate s.wallet.mapWallet
  ({ s with
     mapMyNameFirstUpdate := r.kept
     wallet := { s.wallet with mapWallet := r.mapWallet } }, r.calls)

/-! ## nameFirstUpdateCreateTx -/

/-- Two's-complement wrap of an integer into the range of `int64`. -/
def wrapInt64 (x : Int) : Int :=
  (x + 9223372036854775808) % 18446744073709551616 - 9223372036854775808

/-- Two's-complement wrap of an integer into the range of `int`. -/
def wrapInt32 (x : Int) : Int :=
  (x + 2147483648) % 4294967296 - 2147483648

/-- The fee rounding of walletmodel.cpp 243-244 on `int64`:
`nNetFee += CENT - 1; nNetFee = (nNetFee / CENT) * CENT;` with the division
of C++, which truncates towards zero. -/
def roundUpToCent (CENT : Int) (nNetFee : Int) : Int :=
  let n1 := wrapInt64 (nNetFee + wrapInt64 (CENT - 1))
  wrapInt64 (wrapInt64 (Int.tdiv n1 CENT) * CENT)

/-- The outputs `vecSend` of walletmodel.cpp 253-261: the name output of value
`nValue`, followed by an `OP_RETURN` fee output when `nNetFee` is not zero. -/
def buildVecSend (env : Env) (scriptPubKey : CScript) (nValue : Int) (nNetFee : Int) :
    List (CScript × Int) :=
  (scriptPubKey, nValue) ::
    (if nNetFee ≠ 0 then [([ScriptItem.op env.OP_RETURN], nNetFee)] else [])

/-- Test `mapNamePending.count(vchName) && mapNamePending[vchName].size()`. -/
def hasPending (s : State) (vchName : Vch) : Bool :=
  match mapFind s.mapNamePending vchName with
  | none => false
  | some l => l.length != 0

def msgPending : String := "there are pending operations on that name"

def msgActive : String := "this name is already active"

def msgNotInWallet : String := "previous transaction is not in the wallet"

def msgNotNameNew : String := "previous transaction wasn't a name_new"

def msgNotNameTx : String := "previous tx on this name is not a name tx"

def msgDifferentRand : String := "previous tx used a different random value"

def msgCreationFailed : String := "Error: Transaction creation failed  "

def msgCheckFailed : String :=
  "Error: CheckTransaction failed for transaction created by nameFirstUpdateCreateTx"

/-- The message of walletmodel.cpp 267 for a fee the balance does not cover. -/
def msgFeeRequired (env : Env) (nFeeRequired : Int) : String :=
  "Error: This transaction requires a transaction fee of at least " ++
    env.FormatMoney nFeeRequired ++
    " because of its amount, complexity, or use of recently received funds "

/-- The loop over `wtxIn.vout` of walletmodel.cpp 220-230. The accumulator is
`(vchHash, found)`; an output that decodes as a name script with an operation
other than `OP_NAME_NEW` ends the function with an error. `vvch[0]` of an
empty `vvch` is taken to be the empty vector. -/
def scanNameOutputs (env : Env) : List CTxOut → Vch × Bool → Except String (Vch × Bool)
  | [], acc => Except.ok acc
  | out :: outs, acc =>
    match env.DecodeNameScript out.scriptPubKey with
    | some (op, vvch) =>
      if op ≠ env.OP_NAME_NEW then Except.error msgNotNameNew
      else scanNameOutputs env outs (vvch.headD [], true)
    | none => scanNameOutputs env outs acc

/-- The function `WalletModel::nameFirstUpdateCreateTx` (walletmodel.cpp
182-287): the error string (empty on success), the transaction `wtx` and the
wallet afterwards. The translation function `_` is the identity. The wallet
transaction is looked up once: `GetKeyFromKeyPool`, called between
`mapWallet.count(wtxInHash)` and `mapWallet[wtxInHash]`, changes the key pool
only. -/
def nameFirstUpdateCreateTx (env : Env) (s : State) (wtx0 : CWalletTx) (vchName : Vch)
    (wtxInHash : uint256) (rand : Nat) (vchValue : Vch) : String × CWalletTx × CWallet :=
  let wtx : CWalletTx := { wtx0 with nVersion := env.NAMECOIN_TX_VERSION }
  if hasPending s vchName then (msgPending, wtx, s.wallet)
  else
    match env.GetTxOfName vchName with
    | some _ => (msgActive, wtx, s.wallet)
    | none =>
      match mapFind s.wallet.mapWallet wtxInHash with
      | none => (msgNotInWallet, wtx, s.wallet)
      | some wtxIn =>
        let vchRand := env.getvch rand
        let kp := env.GetKeyFromKeyPool s.wallet.keyPool
        let wallet1 : CWallet := { s.wallet with keyPool := kp.2 }
        let scriptPubKey : CScript :=
          [ScriptItem.op env.OP_NAME_FIRSTUPDATE, ScriptItem.push vchName,
           ScriptItem.push vchRand, ScriptItem.push vchValue,
           ScriptItem.op env.OP_2DROP, ScriptItem.op env.OP_2DROP] ++
            env.SetBitcoinAddress kp.1
        match scanNameOutputs env wtxIn.vout ([], false) with
        | Except.error msg => (msg, wtx, wallet1)
        | Except.ok (vchHash, found) =>
          if !found then (msgNotNameTx, wtx, wallet1)
          else if env.uint160OfVch vchHash ≠ env.Hash160 (vchRand ++ vchName) then
            (msgDifferentRand, wtx, wallet1)
          else
            let nNetFee := roundUpToCent env.CENT (env.GetNetworkFee env.pindexBestHeight)
            let nValue := env.MIN_AMOUNT
            let nTxOut := env.IndexOfNameOutput wtxIn
            let vecSend := buildVecSend env scriptPubKey nValue nNetFee
            let c := env.CreateTransactionWithInputTx wallet1 vecSend wtxIn nTxOut wtx
            if !c.ok then
              if nValue + c.nFeeRequired > env.GetBalance wallet1 then
                (msgFeeRequired env c.nFeeRequired, c.wtx, wallet1)
              else (msgCreationFailed, c.wtx, wallet1)
            else
              let wallet2 : CWallet :=
                { wallet1 with keyPool := env.KeepKey wallet1.keyPool c.reservekey }
              if !env.CheckTransaction c.wtx then (msgCheckFailed, c.wtx, wallet2)
              else ("", c.wtx, wallet2)

/-! ## nameFirstUpdatePrepare, nameNew, nameAvailable -/

def msgNoTxHash : String := "Cannot find stored tx hash for name"

def msgNoRand : String := "Cannot find stored rand value for name"

/-- The function `WalletModel::nameFirstUpdatePrepare` (walletmodel.cpp
502-536) on the bytes of `name` and `data`: the error string (empty on
success), the state afterwards and the calls made. -/
def nameFirstUpdatePrepare (env : Env) (s : State) (vchName : Vch) (vchValue : Vch) :
    String × State × List Call :=
  match mapFind s.mapMyNames vchName with
  | none => (msgNoTxHash, s, [])
  | some wtxInHash =>
    match mapFind s.mapMyNameFirstUpdate vchName with
    | none => (msgNoRand, s, [])
    | some e =>
      let rand := e.rand
      let r := nameFirstUpdateCreateTx env s CWalletTx.null vchName wtxInHash rand vchValue
      if r.1 ≠ "" then (r.1, { s with wallet := r.2.2 }, [])
      else
        ("",
         { s with
           wallet := r.2.2
           mapMyNameFirstUpdate :=
             mapReplace s.mapMyNameFirstUpdate vchName
               { e with vchData := vchValue, wtx := r.2.1 } },
         [Call.WriteNameFirstUpdate vchName wtxInHash rand vchValue r.2.1])

/-- Return value `WalletModel::NameNewReturn`. Fields the source leaves unset
on failure are 0. -/
structure NameNewReturn where
  ok : Bool
  err_msg : String
  vchName : Vch
  hex : uint256
  rand : Nat
  hash : uint160
  deriving DecidableEq, Repr

/-- The statement `mapMyNameFirstUpdate[vchName].rand = rand`: `operator[]`
inserts a default entry for a new name; an existing entry keeps its other
fields. -/
def setRand (m : List (Vch × PreparedNameFirstUpdate)) (vchName : Vch) (rand : Nat) :
    List (Vch × PreparedNameFirstUpdate) :=
  match mapFind m vchName with
  | some e => mapReplace m vchName { e with rand := rand }
  | none => mapSet vchLt m vchName { PreparedNameFirstUpdate.null with rand := rand }

/-- The script `OP_NAME_NEW << hash << OP_2DROP` followed by the payment
script of the key taken from the key pool (walletmodel.cpp 461-472). -/
def nameNewScript (env : Env) (s : State) (rand : Nat) (vchName : Vch) : CScript :=
  [ScriptItem.op env.OP_NAME_NEW,
   ScriptItem.pushHash (env.Hash160 (env.getvch rand ++ vchName)),
   ScriptItem.op env.OP_2DROP] ++
    env.SetBitcoinAddress (env.GetKeyFromKeyPool s.wallet.keyPool).1

/-- The call `wallet->SendMoney(scriptPubKey, MIN_AMOUNT, wtx, true)` of
`nameNew` (walletmodel.cpp 476) and its result. -/
def nameNewSendMoney (env : Env) (s : State) (rand : Nat) (vchName : Vch) :
    String × CWalletTx × CWallet :=
  env.SendMoney { s.wallet with keyPool := (env.GetKeyFromKeyPool s.wallet.keyPool).2 }
    (nameNewScript env s rand vchName) env.MIN_AMOUNT
    { CWalletTx.null with nVersion := env.NAMECOIN_TX_VERSION }

/-- The state of `nameNew` after the assignments of walletmodel.cpp 488-490,
before the automatic `nameFirstUpdatePrepare`. -/
def nameNewRecord (env : Env) (s : State) (rand : Nat) (vchName : Vch) : State :=
  let r := nameNewSendMoney env s rand vchName
  { s with
    wallet := r.2.2
    mapMyNames := mapSet vchLt s.mapMyNames vchName (env.GetHash r.2.1)
    mapMyNameHashes :=
      mapSet hashLt s.mapMyNameHashes (env.Hash160 (env.getvch rand ++ vchName)) vchName
    mapMyNameFirstUpdate := setRand s.mapMyNameFirstUpdate vchName rand }

/-- The function `WalletModel::nameNew` (walletmodel.cpp 451-500) on the bytes
of `name`; `rand` is the value returned by `GetRand((uint64)-1)`. -/
def nameNew (env : Env) (s : State) (rand : Nat) (vchName : Vch) :
    NameNewReturn × State × List Call :=
  let r := nameNewSendMoney env s rand vchName
  let call := Call.SendMoney (nameNewScript env s rand vchName) env.MIN_AMOUNT r.1
  if r.1 ≠ "" then
    ({ ok := false, err_msg := r.1, vchName := vchName, hex := 0, rand := 0, hash := 0 },
     { s with wallet := r.2.2 }, [call])
  else
    let p := nameFirstUpdatePrepare env (nameNewRecord env s rand vchName) vchName []
    ({ ok := true, err_msg := "", vchName := vchName, hex := env.GetHash r.2.1, rand := rand,
       hash := env.Hash160 (env.getvch rand ++ vchName) },
     p.2.1, call :: p.2.2)

/-- The function `WalletModel::nameAvailable` (walletmodel.cpp 420-449) on the
bytes of `name`, with the `int` arithmetic of line 445 wrapped to 32 bits. -/
def nameAvailable (env : Env) (vchName : Vch) : Bool :=
  match env.ReadName vchName with
  | none => true
  | some vtxPos =>
    match vtxPos.getLast? with
    | none => true
    | some idx =>
      let txPos := idx.txPos
      if !env.ReadFromDisk txPos then true
      else if env.IsNull txPos then true
      else
        match env.GetValueOfTxPos txPos with
        | none => true
        | some (_, _, nHeight) =>
          if wrapInt32 (wrapInt32 (nHeight + env.GetDisplayExpirationDepth nHeight)
              - env.pindexBestHeight) ≤ 0 then true
          else false

/-! ## nameUpdate, checkBalanceChanged, pollBalanceChanged -/

/-- Constants and collaborator functions of `nameUpdate` that are defined
outside walletmodel.cpp. -/
structure UpdateEnv where
  OP_NAME_UPDATE : Nat
  OP_DROP : Nat
  /-- Call `AddressToHash160(strAddress, hash160)`: `none` when it returns
  false. -/
  AddressToHash160 : String → Option uint160
  /-- Script built by `CScript::SetBitcoinAddress` for an address string. -/
  SetBitcoinAddressOfString : String → CScript
  /-- Call `SendMoneyWithInputTx(scriptPubKey, nValue, nNetFee, wtxIn, wtx,
  fAskFee)`: the error string (empty on success) and the wallet afterwards. -/
  SendMoneyWithInputTx : CWallet → CScript → Int → Int → CWalletTx → CWalletTx → String × CWallet

/-- A transaction submitted by `nameUpdate`: the arguments of its
`SendMoneyWithInputTx` call and the string returned. -/
inductive UpdateCall where
  | SendMoneyWithInputTx (scriptPubKey : CScript) (nValue : Int) (nNetFee : Int)
      (wtxIn : CWalletTx) (strError : String)
  deriving DecidableEq, Repr

def msgInvalidAddress : String := "Invalid Namecoin address"

def msgUpdatePending : String := "There are pending operations on that name"

def msgNoCoin : String := "Could not find a coin with this name"

def msgCoinNotInWallet : String := "This coin is not in your wallet"

/-- The function `WalletModel::nameUpdate` (walletmodel.cpp 538-597) on the
bytes of `name` and `data` and the string `transferToAddress`: the string
returned, the state afterwards and the transactions submitted. The translation
function `tr` is the identity. -/
def nameUpdate (env : Env) (u : UpdateEnv) (s : State) (vchName vchValue : Vch)
    (transferToAddress : String) : String × State × List UpdateCall :=
  let wtx : CWalletTx := { CWalletTx.null with nVersion := env.NAMECOIN_TX_VERSION }
  let afterAddress (scriptPubKeyOrig : CScript) (s1 : State) : String × State × List UpdateCall :=
    let scriptPubKey : CScript :=
      [ScriptItem.op u.OP_NAME_UPDATE, ScriptItem.push vchName, ScriptItem.push vchValue,
       ScriptItem.op env.OP_2DROP, ScriptItem.op u.OP_DROP] ++ scriptPubKeyOrig
    if hasPending s1 vchName then (msgUpdatePending, s1, [])
    else
      match env.GetTxOfName vchName with
      | none => (msgNoCoin, s1, [])
      | some tx =>
        let wtxInHash := env.GetHash tx
        match mapFind s1.wallet.mapWallet wtxInHash with
        | none => (msgCoinNotInWallet, s1, [])
        | some wtxIn =>
          let r := u.SendMoneyWithInputTx s1.wallet scriptPubKey env.MIN_AMOUNT 0 wtxIn wtx
          (r.1, { s1 with wallet := r.2 },
           [UpdateCall.SendMoneyWithInputTx scriptPubKey env.MIN_AMOUNT 0 wtxIn r.1])
  if transferToAddress ≠ "" then
    match u.AddressToHash160 transferToAddress with
    | none => (msgInvalidAddress, s, [])
    | some _ => afterAddress (u.SetBitcoinAddressOfString transferToAddress) s
  else
    let kp := env.GetKeyFromKeyPool s.wallet.keyPool
    afterAddress (env.SetBitcoinAddress kp.1) { s with wallet := { s.wallet with keyPool := kp.2 } }

/-- Chain state and wallet functions read by `pollBalanceChanged` and
`checkBalanceChanged` that are defined outside walletmodel.cpp. -/
structure PollEnv where
  /-- The global `nBestHeight`. -/
  nBestHeight : Int
  /-- Result of `IsInitialBlockDownload()`. -/
  IsInitialBlockDownload : Bool
  GetUnconfirmedBalance : CWallet → Int
  GetImmatureBalance : CWallet → Int

/-- The members of `WalletModel` that `pollBalanceChanged` and
`checkBalanceChanged` read and write. -/
structure WalletModel where
  cachedBalance : Int
  cachedUnconfirmedBalance : Int
  cachedImmatureBalance : Int
  cachedNumBlocks : Int
  deriving DecidableEq, Repr

/-- A signal emitted by the model. -/
inductive Signal where
  | balanceChanged (newBalance newUnconfirmedBalance newImmatureBalance : Int)
  deriving DecidableEq, Repr

/-- The function `WalletModel::checkBalanceChanged` (walletmodel.cpp 91-104):
the members afterwards and the signals emitted. -/
def checkBalanceChanged (env : Env) (p : PollEnv) (s : State) (m : WalletModel) :
    WalletModel × List Signal :=
  let newBalance := env.GetBalance s.wallet
  let newUnconfirmedBalance := p.GetUnconfirmedBalance s.wallet
  let newImmatureBalance := p.GetImmatureBalance s.wallet
  if m.cachedBalance ≠ newBalance ∨ m.cachedUnconfirmedBalance ≠ newUnconfirmedBalance ∨
      m.cachedImmatureBalance ≠ newImmatureBalance then
    ({ m with
       cachedBalance := newBalance
       cachedUnconfirmedBalance := newUnconfirmedBalance
       cachedImmatureBalance := newImmatureBalance },
     [Signal.balanceChanged newBalance newUnconfirmedBalance newImmatureBalance])
  else (m, [])

/-- Outcome of `pollBalanceChanged`: the members and the global state
afterwards, the signals emitted and the calls made. -/
structure PollResult where
  model : WalletModel
  state : State
  signals : List Signal
  calls : List Call
  deriving DecidableEq, Repr

/-- The function `WalletModel::pollBalanceChanged` (walletmodel.cpp 78-89). -/
def pollBalanceChanged (env : Env) (p : PollEnv) (s : State) (m : WalletModel) : PollResult :=
  if p.nBestHeight ≠ m.cachedNumBlocks then
    let m1 : WalletModel := { m with cachedNumBlocks := p.nBestHeight }
    let c := checkBalanceChanged env p s m1
    if !p.IsInitialBlockDownload then
      let r := sendPendingNameFirstUpdates env s
      { model := c.1, state := r.1, signals := c.2, calls := r.2 }
    else { model := c.1, state := s, signals := c.2, calls := [] }
  else { model := m, state := s, signals := [], calls := [] }

/-! ## A concrete environment

A small instance of `Env` and of `State`, used to evaluate the functions on
concrete inputs. -/

/-- Twenty little-endian bytes of a 160-bit number. -/
def vchOfUint160 (h : uint160) : Vch :=
  (List.range 20).map (fun i => h / 256 ^ i % 256)

/-- Little-endian value of a byte vector of length 20, and 0 for any other
length (the behaviour of the `uint160` constructor from a vector). -/
def demoUint160OfVch (v : Vch) : uint160 :=
  if v.length = 20 then v.foldr (fun b acc => b + 256 * acc) 0 else 0

/-- A toy hash into 160 bits. -/
def demoHash160 (v : Vch) : uint160 :=
  v.foldl (fun acc b => (acc * 257 + b + 1) % 2 ^ 160) 7

/-- A toy digest of a script item. -/
def demoItemCode : ScriptItem → Nat
  | ScriptItem.op c => c
  | ScriptItem.push d => 3 * d.sum + d.length
  | ScriptItem.pushHash h => h % 1000003

/-- A toy transaction id. -/
def demoGetHash (t : CWalletTx) : uint256 :=
  1000 + 31 * t.vin.length + (t.vin.map (fun i => i.prevoutHash)).sum +
    (t.vout.map (fun o => o.nValue.toNat + (o.scriptPubKey.map demoItemCode).sum)).sum

/-- A name script is recognised by its leading name opcode (1 = `name_new`,
2 = `name_firstupdate`). -/
def demoDecodeNameScript : CScript → Option (Nat × List Vch)
  | ScriptItem.op 1 :: ScriptItem.pushHash h :: _ => some (1, [vchOfUint160 h])
  | ScriptItem.op 2 :: ScriptItem.push n :: ScriptItem.push r :: ScriptItem.push v :: _ =>
    some (2, [n, r, v])
  | _ => none

/-- Adds the transaction under its id unless that id is already present. -/
def demoCommitTransaction (mw : List (uint256 × CWalletTx)) (wtx : CWalletTx) :
    Bool × List (uint256 × CWalletTx) :=
  match mapFind mw (demoGetHash wtx) with
  | some _ => (true, mw)
  | none => (wtx.vin ≠ [], mapSet hashLt mw (demoGetHash wtx) wtx)

/-- Sum of the outputs of the wallet transactions. -/
def demoGetBalance (w : CWallet) : Int :=
  (w.mapWallet.map (fun p => (p.2.vout.map (fun o => o.nValue)).sum)).sum

/-- Pays `nValue` to the script from the first wallet transaction, when the
balance suffices. -/
def demoSendMoney (w : CWallet) (script : CScript) (nValue : Int) (wtx : CWalletTx) :
    String × CWalletTx × CWallet :=
  if nValue > demoGetBalance w then ("Insufficient funds", wtx, w)
  else
    let wtxNew : CWalletTx :=
      { wtx with
        vin := (w.mapWallet.take 1).map (fun p => { prevoutHash := p.1, prevoutN := 0 })
        vout := [{ nValue := nValue, scriptPubKey := script }] }
    ("", wtxNew, { w with mapWallet := mapSet hashLt w.mapWallet (demoGetHash wtxNew) wtxNew })

/-- Spends output `nTxOut` of `wtxIn` into the outputs `vecSend`; fails when
`wtxIn` has no such output. -/
def demoCreateTransactionWithInputTx (_w : CWallet) (vecSend : List (CScript × Int))
    (wtxIn : CWalletTx) (nTxOut : Int) (wtx : CWalletTx) : CreateTxResult :=
  { ok := decide (0 ≤ nTxOut ∧ nTxOut < wtxIn.vout.length)
    wtx :=
      { wtx with
        vin := [{ prevoutHash := demoGetHash wtxIn, prevoutN := nTxOut }]
        vout := vecSend.map (fun p => { nValue := p.2, scriptPubKey := p.1 }) }
    nFeeRequired := 0
    reservekey := none }

/-- Index of the first output carrying a name script, -1 when there is none. -/
def demoIndexOfNameOutput : List CTxOut → Int
  | [] => -1
  | o :: os =>
    if (demoDecodeNameScript o.scriptPubKey).isSome then 0
    else if demoIndexOfNameOutput os = -1 then -1 else demoIndexOfNameOutput os + 1

/-- A concrete environment: threshold 12, best height 100, a lookup table for
the name index, and the toy wallet functions above. The block a transaction is
in is identified with its height, so the depth is `100 - hashBlock + 1`. -/
def demoEnv : Env :=
  { MIN_FIRSTUPDATE_DEPTH := 12
    CENT := 1000000
    MIN_AMOUNT := 1000000
    NAMECOIN_TX_VERSION := 28928
    OP_NAME_NEW := 1
    OP_NAME_FIRSTUPDATE := 2
    OP_2DROP := 109
    OP_RETURN := 106
    pindexBestHeight := 100
    GetNetworkFee := fun _ => 0
    GetTxOfName := fun _ => none
    GetDepthInMainChain := fun t => if t.hashBlock = 0 then 0 else 100 - (t.hashBlock : Int) + 1
    endDepth := 0
    endIncrement := fun n => n - 1
    Hash160 := demoHash160
    uint160OfVch := demoUint160OfVch
    getvch := fun r => (List.range 8).map (fun i => r / 256 ^ i % 256)
    DecodeNameScript := demoDecodeNameScript
    SetBitcoinAddress := fun k => [ScriptItem.op 118, ScriptItem.op 169, ScriptItem.push k,
      ScriptItem.op 136, ScriptItem.op 172]
    IndexOfNameOutput := fun t => demoIndexOfNameOutput t.vout
    GetHash := demoGetHash
    CheckTransaction := fun t => decide (t.vin ≠ [] ∧ t.vout ≠ [])
    FormatMoney := fun _ => "0.00"
    GetKeyFromKeyPool := fun pool =>
      match pool with
      | [] => ([0], [])
      | k :: ks => (k, ks)
    KeepKey := fun pool _ => pool
    CommitTransaction := demoCommitTransaction
    SendMoney := demoSendMoney
    CreateTransactionWithInputTx := demoCreateTransactionWithInputTx
    GetBalance := demoGetBalance
    ReadName := fun n => if n = [100] then some [{ txPos := 5 }, { txPos := 9 }] else none
    ReadFromDisk := fun p => decide (p = 9)
    IsNull := fun p => decide (p = 0)
    GetValueOfTxPos := fun p => if p = 9 then some ([1], 77, 90) else none
    GetDisplayExpirationDepth := fun _ => 36000 }

/-- A `name_new` transaction carrying hash `h`, recorded in block `blk`. -/
def demoNameNewTx (h : uint160) (blk : Nat) : CWalletTx :=
  { nVersion := 28928
    vin := [{ prevoutHash := 1, prevoutN := 0 }]
    vout := [{ nValue := 1000000,
               scriptPubKey := [ScriptItem.op 1, ScriptItem.pushHash h, ScriptItem.op 109,
                 ScriptItem.op 118, ScriptItem.op 169, ScriptItem.push [3], ScriptItem.op 136,
                 ScriptItem.op 172] }]
    hashBlock := blk }

/-- A prepared reveal transaction spending output 0 of transaction `src`. -/
def demoRevealTx (src : uint256) : CWalletTx :=
  { nVersion := 28928
    vin := [{ prevoutHash := src, prevoutN := 0 }]
    vout := [{ nValue := 1000000, scriptPubKey := [ScriptItem.op 2] }]
    hashBlock := 0 }

/-- Three pending names: `a` (bytes `[97]`) whose transaction 10 is not in the
wallet, `b` (`[98]`) whose transaction 11 has depth 6, `c` (`[99]`) whose
transaction 12 has depth 21. -/
def demoState : State :=
  { mapMyNameFirstUpdate :=
      [([97], { rand := 5, vchData := [1], wtx := demoRevealTx 10 }),
       ([98], { rand := 6, vchData := [2], wtx := demoRevealTx 11 }),
       ([99], { rand := 7, vchData := [3], wtx := demoRevealTx 12 })]
    mapMyNameHashes := []
    mapMyNames := [([97], 10), ([98], 11), ([99], 12)]
    mapNamePending := []
    wallet :=
      { mapWallet := [(11, demoNameNewTx 1 95), (12, demoNameNewTx 2 80)]
        keyPool := [[4], [5], [6]] } }

/-- Two pending names: `a` (`[97]`) whose transaction 10 is not in the wallet,
directly followed by `c` (`[99]`) whose transaction 12 has depth 21. -/
def demoSkipState : State :=
  { mapMyNameFirstUpdate :=
      [([97], { rand := 5, vchData := [1], wtx := demoRevealTx 10 }),
       ([99], { rand := 7, vchData := [3], wtx := demoRevealTx 12 })]
    mapMyNameHashes := []
    mapMyNames := [([97], 10), ([99], 12)]
    mapNamePending := []
    wallet :=
      { mapWallet := [(12, demoNameNewTx 2 80)]
        keyPool := [[4], [5], [6]] } }

/-- Two pending names: `b` (`[98]`) whose transaction 11 has depth 6,
followed by `c` (`[99]`) whose transaction 10 is not in the wallet. -/
def demoWrapState : State :=
  { mapMyNameFirstUpdate :=
      [([98], { rand := 6, vchData := [2], wtx := demoRevealTx 11 }),
       ([99], { rand := 7, vchData := [3], wtx := demoRevealTx 10 })]
    mapMyNameHashes := []
    mapMyNames := [([98], 11), ([99], 10)]
    mapNamePending := []
    wallet :=
      { mapWallet := [(11, demoNameNewTx 1 95)]
        keyPool := [[4], [5], [6]] } }

/-- One pending name, `c` (`[99]`), whose transaction 10 is not in the
wallet. -/
def demoLoneState : State :=
  { mapMyNameFirstUpdate := [([99], { rand := 7, vchData := [3], wtx := demoRevealTx 10 })]
    mapMyNameHashes := []
    mapMyNames := [([99], 10)]
    mapNamePending := []
    wallet := { mapWallet := [(11, demoNameNewTx 1 95)], keyPool := [[4], [5], [6]] } }

/-- A funding transaction of value 5000000 in block 50. -/
def demoFundTx : CWalletTx :=
  { nVersion := 1
    vin := []
    vout := [{ nValue := 5000000, scriptPubKey := [] }]
    hashBlock := 50 }

/-- A wallet with funds and four unused keys, and no pending name. -/
def demoFreshState : State :=
  { mapMyNameFirstUpdate := []
    mapMyNameHashes := []
    mapMyNames := []
    mapNamePending := []
    wallet := { mapWallet := [(1, demoFundTx)], keyPool := [[4], [5], [6], [7]] } }

/-- The state after `nameNew` of the name `a` with rand 1234 in
`demoFreshState`. -/
def demoCommittedState : State := (nameNew demoEnv demoFreshState 1234 [97]).2.1

/-- The environment `demoEnv` in which the name `d` (`[100]`) has a live
transaction. -/
def demoBusyEnv : Env :=
  { demoEnv with
    GetTxOfName := fun n => if n = [100] then some (demoNameNewTx 9 90) else none }

/-- A state in which the name `d` (`[100]`) has a pending entry with rand 5,
the originating transaction 13 and one pending operation 555. -/
def demoBusyState : State :=
  { mapMyNameFirstUpdate := [([100], { rand := 5, vchData := [1], wtx := demoRevealTx 13 })]
    mapMyNameHashes := []
    mapMyNames := [([100], 13)]
    mapNamePending := [([100], [555])]
    wallet := { mapWallet := [(1, demoFundTx)], keyPool := [[4], [5], [6], [7]] } }

/-- A state in which the name `a` has rand 5 recorded while its originating
transaction 11 carries the hash 1, which is not the hash of rand 5 and `a`. -/
def demoTamperedState : State :=
  { mapMyNameFirstUpdate := [([97], { rand := 5, vchData := [1], wtx := demoRevealTx 11 })]
    mapMyNameHashes := []
    mapMyNames := [([97], 11)]
    mapNamePending := []
    wallet := { mapWallet := [(11, demoNameNewTx 1 95)], keyPool := [[4], [5]] } }

/-- The environment `demoEnv` at best height 40000, where the record of the
name `d` (height 90, expiration depth 36000) has expired. -/
def demoLateEnv : Env := { demoEnv with pindexBestHeight := 40000 }

/-- The environment `demoEnv` in which no transaction can be read from
disk. -/
def demoUnreadableEnv : Env := { demoEnv with ReadFromDisk := fun _ => false }

/-- The environment `demoEnv` with a network fee of 1500000. -/
def demoFeeEnv : Env := { demoEnv with GetNetworkFee := fun _ => 1500000 }

/-- The environment `demoEnv` with `MIN_AMOUNT` above the funds of
`demoFreshState`, so that `SendMoney` fails. -/
def demoPoorEnv : Env := { demoEnv with MIN_AMOUNT := 9000000 }

/-- A concrete `UpdateEnv`: the address `N1` is the only valid one, and
`SendMoneyWithInputTx` always succeeds without changing the wallet. -/
def demoUpdateEnv : UpdateEnv :=
  { OP_NAME_UPDATE := 3
    OP_DROP := 117
    AddressToHash160 := fun a => if a = "N1" then some 42 else none
    SetBitcoinAddressOfString := fun _ => [ScriptItem.op 118, ScriptItem.op 169,
      ScriptItem.pushHash 42, ScriptItem.op 136, ScriptItem.op 172]
    SendMoneyWithInputTx := fun w _ _ _ _ _ => ("", w) }

/-- A chain at height 100 that is still in its initial block download. -/
def demoSyncingEnv : PollEnv :=
  { nBestHeight := 100
    IsInitialBlockDownload := true
    GetUnconfirmedBalance := fun _ => 0
    GetImmatureBalance := fun _ => 0 }

/-- A chain at height 100 after the initial block download. -/
def demoSyncedEnv : PollEnv := { demoSyncingEnv with IsInitialBlockDownload := false }

/-- Members of the model with the height 99 cached. -/
def demoModel : WalletModel :=
  { cachedBalance := 0, cachedUnconfirmedBalance := 0, cachedImmatureBalance := 0,
    cachedNumBlocks := 99 }

/-- Store consistency: every entry of `mapMyNameFirstUpdate` that holds a
stored reveal transaction (one that is not the default-constructed
`CWalletTx()`) holds the transaction that `nameFirstUpdateCreateTx` built, in
some state, from the name, the transaction id recorded for the name in
`mapMyNames`, the rand of the entry and the data of the entry. -/
def StoreConsistent (env : Env) (s : State) : Prop :=
  ∀ vchName e, (vchName, e) ∈ s.mapMyNameFirstUpdate → e.wtx ≠ CWalletTx.null →
    ∃ h s', mapFind s.mapMyNames vchName = some h ∧
      (nameFirstUpdateCreateTx env s' CWalletTx.null vchName h e.rand e.vchData).1 = "" ∧
      (nameFirstUpdateCreateTx env s' CWalletTx.null vchName h e.rand e.vchData).2.1 = e.wtx

/-- The state `demoCommittedState` after the name `a` was configured with the
data `[1, 2]`, at a time when one operation on `a` is pending. -/
def demoReconfiguredState : State :=
  { (nameFirstUpdatePrepare demoEnv demoCommittedState [97] [1, 2]).2.1 with
    mapNamePending := [([97], [555])] }

/-- The reveal transaction stored for `a` in `demoReconfiguredState`: built
from the commitment 1135584, the rand 1234 and the data `[1, 2]`. -/
def demoStaleReveal : CWalletTx :=
  (nameFirstUpdateCreateTx demoEnv demoCommittedState CWalletTx.null [97] 1135584 1234 [1, 2]).2.1

/-- The first three items of the script of the first output: for a reveal
transaction the operation, the name and the bytes of the rand. -/
def revealScriptHead (t : CWalletTx) : Option CScript :=
  t.vout.head?.map (fun o => o.scriptPubKey.take 3)

/-- Recognises the `CommitTransaction` calls made for the entry of a name. -/
def isCommitFor (vchName : Vch) : Call → Bool
  | Call.CommitTransaction n _ _ => decide (n = vchName)
  | _ => false

/-- Some transaction under id `h` in `mw` has depth at or above the threshold. -/
def Mature (env : Env) (mw : List (uint256 × CWalletTx)) (h : uint256) : Prop :=
  ∃ t, mapFind mw h = some t ∧ ¬ env.GetDepthInMainChain t < env.MIN_FIRSTUPDATE_DEPTH

/-- Frame condition on the wallet: `CommitTransaction` removes no transaction
from `mapWallet` and leaves the depth of the transactions in it unchanged. -/
def CommitKeepsDepth (env : Env) : Prop :=
  ∀ mw wtx h t, mapFind mw h = some t →
    ∃ t', mapFind (env.CommitTransaction mw wtx).2 h = some t' ∧
      env.GetDepthInMainChain t' = env.GetDepthInMainChain t

/-- Some transaction under id `h` in `mw` has depth below the threshold. -/
def Immature (env : Env) (mw : List (uint256 × CWalletTx)) (h : uint256) : Prop :=
  ∃ t, mapFind mw h = some t ∧ env.GetDepthInMainChain t < env.MIN_FIRSTUPDATE_DEPTH

/-! ## Map lemmas -/

theorem mapFind_mapSet_self {K V : Type} [DecidableEq K] (lt : K → K → Bool)
    (m : List (K × V)) (k : K) (v : V) : mapFind (mapSet lt m k v) k = some v := by
  induction m with
  | nil => simp [mapSet, mapFind]
  | cons x m ih =>
    obtain ⟨k', v'⟩ := x
    by_cases h1 : k' = k
    · simp [mapSet, mapFind, h1]
    · by_cases h2 : lt k k' = true
      · simp [mapSet, mapFind, h1, h2]
      · simp [mapSet, mapFind, h1, h2, ih]

theorem mapFind_mapSet_ne {K V : Type} [DecidableEq K] (lt : K → K → Bool)
    (m : List (K × V)) (k k2 : K) (v : V) (hne : k ≠ k2) :
    mapFind (mapSet lt m k v) k2 = mapFind m k2 := by
  induction m with
  | nil => simp [mapSet, mapFind, hne]
  | cons x m ih =>
    obtain ⟨k', v'⟩ := x
    by_cases h1 : k' = k
    · subst h1; simp [mapSet, mapFind, hne]
    · by_cases h2 : lt k k' = true
      · simp [mapSet, mapFind, h1, h2, hne]
      · simp [mapSet, mapFind, h1, h2, ih]

theorem mapFind_mapReplace_self {K V : Type} [DecidableEq K]
    (m : List (K × V)) (k : K) (v v0 : V) (h : mapFind m k = some v0) :
    mapFind (mapReplace m k v) k = some v := by
  induction m with
  | nil => simp [mapFind] at h
  | cons x m ih =>
    obtain ⟨k', v'⟩ := x
    by_cases h1 : k' = k
    · simp [mapReplace, mapFind, h1]
    · simp only [mapFind, h1, if_false] at h
      simp [mapReplace, mapFind, h1, ih h]

theorem mapFind_mapReplace_ne {K V : Type} [DecidableEq K]
    (m : List (K × V)) (k k2 : K) (v : V) (hne : k ≠ k2) :
    mapFind (mapReplace m k v) k2 = mapFind m k2 := by
  induction m with
  | nil => simp [mapReplace, mapFind]
  | cons x m ih =>
    obtain ⟨k', v'⟩ := x
    by_cases h1 : k' = k
    · subst h1; simp [mapReplace, mapFind, hne]
    · simp [mapReplace, mapFind, h1, ih]

theorem mapReplace_keys {K V : Type} [DecidableEq K]
    (m : List (K × V)) (k : K) (v : V) :
    (mapReplace m k v).map Prod.fst = m.map Prod.fst := by
  induction m with
  | nil => simp [mapReplace]
  | cons x m ih =>
    obtain ⟨k', v'⟩ := x
    by_cases h1 : k' = k
    · simp [mapReplace, h1]
    · simp [mapReplace, h1, ih]

/-- The concrete wallet satisfies the frame condition. -/
theorem demoEnv_commitKeepsDepth : CommitKeepsDepth demoEnv := by
  intro mw wtx h t ht
  refine ⟨t, ?_, rfl⟩
  show mapFind (demoCommitTransaction mw wtx).2 h = some t
  unfold demoCommitTransaction
  cases h1 : mapFind mw (demoGetHash wtx) with
  | some t0 => exact ht
  | none =>
    have hne : demoGetHash wtx ≠ h := by
      intro heq
      rw [heq, ht] at h1
      exact absurd h1 (by simp)
    simp only []
    rw [mapFind_mapSet_ne hashLt mw _ h wtx hne]
    exact ht

/-! ## sendPendingNameFirstUpdates -/

theorem immature_commit (env : Env) (hframe : CommitKeepsDepth env)
    (mw : List (uint256 × CWalletTx)) (wtx : CWalletTx) (h : uint256)
    (him : Immature env mw h) : Immature env (env.CommitTransaction mw wtx).2 h := by
  obtain ⟨t, ht, hd⟩ := him
  obtain ⟨t', ht', hd'⟩ := hframe mw wtx h t ht
  exact ⟨t', ht', by rw [hd']; exact hd⟩

/-- Loop invariant behind the maturity gate: an entry whose originating
transaction is in the wallet below the threshold causes no call and keeps its
place in the map. -/
theorem sendLoop_immature (env : Env) (hframe : CommitKeepsDepth env)
    (names : List (Vch × uint256)) (vchName : Vch) (h : uint256)
    (hname : mapFind names vchName = some h) :
    ∀ (l : List (Vch × PreparedNameFirstUpdate)) (skip : Bool)
      (mw : List (uint256 × CWalletTx)), Immature env mw h →
      (∀ wtx ok, Call.CommitTransaction vchName wtx ok ∉ (sendLoop env names skip l mw).calls) ∧
      Call.EraseNameFirstUpdate vchName ∉ (sendLoop env names skip l mw).calls ∧
      mapFind (sendLoop env names skip l mw).kept vchName = mapFind l vchName ∧
      ∀ e, (vchName, e) ∈ l → (vchName, e) ∈ (sendLoop env names skip l mw).kept := by
  intro l
  induction l with
  | nil => intro skip mw _; cases skip <;> simp [sendLoop]
  | cons x rest ih =>
    intro skip mw him
    obtain ⟨k, e⟩ := x
    have hmem : ∀ (kept : List (Vch × PreparedNameFirstUpdate)),
        (∀ e', (vchName, e') ∈ rest → (vchName, e') ∈ kept) →
        ∀ e', (vchName, e') ∈ (k, e) :: rest → (vchName, e') ∈ (k, e) :: kept := by
      intro kept hk e' he'
      rcases List.mem_cons.mp he' with h1 | h1
      · exact h1 ▸ List.mem_cons_self _ _
      · exact List.mem_cons_of_mem _ (hk e' h1)
    have hmem' : ¬ k = vchName → ∀ (kept : List (Vch × PreparedNameFirstUpdate)),
        (∀ e', (vchName, e') ∈ rest → (vchName, e') ∈ kept) →
        ∀ e', (vchName, e') ∈ (k, e) :: rest → (vchName, e') ∈ kept := by
      intro hne kept hk e' he'
      rcases List.mem_cons.mp he' with h1 | h1
      · exact absurd (congrArg Prod.fst h1).symm hne
      · exact hk e' h1
    cases skip with
    | true =>
      have ih' := ih false mw him
      simp only [sendLoop]
      refine ⟨ih'.1, ih'.2.1, ?_, hmem _ ih'.2.2.2⟩
      simp only [mapFind, ih'.2.2.1]
    | false =>
      by_cases hk : k = vchName
      · subst hk
        obtain ⟨t, ht, hd⟩ := him
        have ih' := ih false mw ⟨t, ht, hd⟩
        simp only [sendLoop, hname, ht, hd, if_true]
        refine ⟨?_, ?_, ?_, hmem _ ih'.2.2.2⟩
        · intro wtx ok; simp [ih'.1 wtx ok]
        · simp [ih'.2.1]
        · simp only [mapFind, if_true]
      · have hk' : ¬ vchName = k := fun h => hk h.symm
        cases h1 : mapFind names k with
        | none =>
          have ih' := ih false mw him
          simp only [sendLoop, h1]
          refine ⟨?_, ?_, ?_, hmem' hk _ ih'.2.2.2⟩
          · intro wtx ok; simp [ih'.1 wtx ok]
          · simp [ih'.2.1, hk']
          · simp only [mapFind, hk, if_false, ih'.2.2.1]
        | some h' =>
          cases h2 : mapFind mw h' with
          | none =>
            have ih' := ih (decide (env.endDepth < env.MIN_FIRSTUPDATE_DEPTH)) mw him
            simp only [sendLoop, h1, h2]
            refine ⟨?_, ?_, ?_, hmem' hk _ ih'.2.2.2⟩
            · intro wtx ok; simp [ih'.1 wtx ok]
            · simp [ih'.2.1, hk']
            · simp only [mapFind, hk, if_false, ih'.2.2.1]
          | some wtxIn =>
            by_cases h3 : env.GetDepthInMainChain wtxIn < env.MIN_FIRSTUPDATE_DEPTH
            · have ih' := ih false mw him
              simp only [sendLoop, h1, h2, h3, if_true]
              refine ⟨?_, ?_, ?_, fun e' he' =>
                List.mem_cons_of_mem _ (hmem' hk _ ih'.2.2.2 e' he')⟩
              · intro wtx ok; simp [ih'.1 wtx ok]
              · simp [ih'.2.1]
              · simp only [mapFind, hk, if_false, ih'.2.2.1]
            · have ih' := ih false (env.CommitTransaction mw e.wtx).2
                (immature_commit env hframe mw e.wtx h him)
              simp only [sendLoop, h1, h2, h3, if_false]
              refine ⟨?_, ?_, ?_, hmem' hk _ ih'.2.2.2⟩
              · intro wtx ok; simp [ih'.1 wtx ok, hk']
              · simp [ih'.2.1, hk']
              · simp only [mapFind, hk, if_false, ih'.2.2.1]

/-- A pass removes entries only, and a pass that ends by incrementing the
past-the-end iterator has removed at least one. -/
theorem sendLoop_kept_length (env : Env) (names : List (Vch × uint256)) :
    ∀ (l : List (Vch × PreparedNameFirstUpdate)) (skip : Bool)
      (mw : List (uint256 × CWalletTx)),
      (sendLoop env names skip l mw).kept.length ≤ l.length ∧
      (skip = false → Call.IncrementEnd ∈ (sendLoop env names skip l mw).calls →
        (sendLoop env names skip l mw).kept.length < l.length) := by
  intro l
  induction l with
  | nil => intro skip mw; cases skip <;> simp [sendLoop]
  | cons x rest ih =>
    intro skip mw
    obtain ⟨k, e⟩ := x
    cases skip with
    | true =>
      have ih' := ih false mw
      simp only [sendLoop, List.length_cons]
      exact ⟨by omega, fun hs => by cases hs⟩
    | false =>
      cases h1 : mapFind names k with
      | none =>
        have ih' := ih false mw
        simp only [sendLoop, h1, List.length_cons]
        exact ⟨by omega, fun _ _ => by omega⟩
      | some h' =>
        cases h2 : mapFind mw h' with
        | none =>
          have ih' := ih (decide (env.endDepth < env.MIN_FIRSTUPDATE_DEPTH)) mw
          simp only [sendLoop, h1, h2, List.length_cons]
          exact ⟨by omega, fun _ _ => by omega⟩
        | some wtxIn =>
          by_cases h3 : env.GetDepthInMainChain wtxIn < env.MIN_FIRSTUPDATE_DEPTH
          · have ih' := ih false mw
            simp only [sendLoop, h1, h2, h3, if_true, List.length_cons]
            refine ⟨by omega, fun _ hinc => ?_⟩
            have hinc' : Call.IncrementEnd ∈ (sendLoop env names false rest mw).calls := by
              simpa using hinc
            have := ih'.2 rfl hinc'
            omega
          · have ih' := ih false (env.CommitTransaction mw e.wtx).2
            simp only [sendLoop, h1, h2, h3, if_false, List.length_cons]
            exact ⟨by omega, fun _ _ => by omega⟩

/-- Fuel: once the bound on further passes is at least the size of the map,
a larger bound gives the same run; in `sendPendingNameFirstUpdates`, which
starts with the size of the map, the bound is never what ends the loop. -/
theorem sendPasses_fuel (env : Env) (names : List (Vch × uint256)) :
    ∀ (fuel : Nat) (before rest : List (Vch × PreparedNameFirstUpdate))
      (mw : List (uint256 × CWalletTx)), before.length + rest.length ≤ fuel →
      sendPasses env names (fuel + 1) before rest mw = sendPasses env names fuel before rest mw := by
  intro fuel
  induction fuel with
  | zero =>
    intro before rest mw hlen
    have hb : before = [] := List.length_eq_zero.mp (by omega)
    have hr : rest = [] := List.length_eq_zero.mp (by omega)
    subst hb hr
    simp [sendPasses, sendLoop]
  | succ n ih =>
    intro before rest mw hlen
    have hk := sendLoop_kept_length env names rest false mw
    rw [sendPasses, sendPasses]
    by_cases hinc : Call.IncrementEnd ∈ (sendLoop env names false rest mw).calls
    · by_cases hempty : before ++ (sendLoop env names false rest mw).kept = []
      · simp only [hinc, hempty, if_true]
      · simp only [hinc, hempty, if_true, if_false]
        have hlt := hk.2 rfl hinc
        rw [ih _ _ _ (by
          rw [List.length_take, List.length_drop, List.length_append]
          omega)]
    · simp only [hinc, if_false]

theorem sendLoop_never_returns (env : Env) (names : List (Vch × uint256)) :
    ∀ (l : List (Vch × PreparedNameFirstUpdate)) (skip : Bool)
      (mw : List (uint256 × CWalletTx)),
      Call.NeverReturns ∉ (sendLoop env names skip l mw).calls := by
  intro l
  induction l with
  | nil => intro skip mw; cases skip <;> simp [sendLoop]
  | cons x rest ih =>
    intro skip mw
    obtain ⟨k, e⟩ := x
    cases skip with
    | true => simp only [sendLoop]; exact ih false mw
    | false =>
      cases h1 : mapFind names k with
      | none => simp [sendLoop, h1, ih false mw]
      | some h' =>
        cases h2 : mapFind mw h' with
        | none => simp [sendLoop, h1, h2, ih _ mw]
        | some wtxIn =>
          by_cases h3 : env.GetDepthInMainChain wtxIn < env.MIN_FIRSTUPDATE_DEPTH
          · simp [sendLoop, h1, h2, h3, ih false mw]
          · simp [sendLoop, h1, h2, h3, ih false _]

/-- An immature wallet transaction is still in the wallet, immature, after a
pass. -/
theorem sendLoop_wallet_immature (env : Env) (hframe : CommitKeepsDepth env)
    (names : List (Vch × uint256)) (h : uint256) :
    ∀ (l : List (Vch × PreparedNameFirstUpdate)) (skip : Bool)
      (mw : List (uint256 × CWalletTx)), Immature env mw h →
      Immature env (sendLoop env names skip l mw).mapWallet h := by
  intro l
  induction l with
  | nil => intro skip mw him; cases skip <;> simpa [sendLoop] using him
  | cons x rest ih =>
    intro skip mw him
    obtain ⟨k, e⟩ := x
    cases skip with
    | true => simp only [sendLoop]; exact ih false mw him
    | false =>
      cases h1 : mapFind names k with
      | none => simp only [sendLoop, h1]; exact ih false mw him
      | some h' =>
        cases h2 : mapFind mw h' with
        | none => simp only [sendLoop, h1, h2]; exact ih _ mw him
        | some wtxIn =>
          by_cases h3 : env.GetDepthInMainChain wtxIn < env.MIN_FIRSTUPDATE_DEPTH
          · simp only [sendLoop, h1, h2, h3, if_true]; exact ih false mw him
          · simp only [sendLoop, h1, h2, h3, if_false]
            exact ih false _ (immature_commit env hframe mw e.wtx h him)

theorem mapFind_append_congr {K V : Type} [DecidableEq K] (a b b' : List (K × V)) (k : K)
    (h : mapFind b k = mapFind b' k) : mapFind (a ++ b) k = mapFind (a ++ b') k := by
  induction a with
  | nil => simpa using h
  | cons x a ih =>
    obtain ⟨k', v'⟩ := x
    by_cases h1 : k' = k
    · simp [mapFind, h1]
    · simp [mapFind, h1, ih]

/-- The maturity gate over the whole loop, further passes included: an entry
whose originating transaction is in the wallet below the threshold causes no
`CommitTransaction` and no `EraseNameFirstUpdate` call in any pass, the run
returns, and the entry is still found under its name. -/
theorem sendPasses_immature (env : Env) (hframe : CommitKeepsDepth env)
    (names : List (Vch × uint256)) (vchName : Vch) (h : uint256)
    (hname : mapFind names vchName = some h) :
    ∀ (fuel : Nat) (before rest : List (Vch × PreparedNameFirstUpdate))
      (mw : List (uint256 × CWalletTx)) (e : PreparedNameFirstUpdate),
      Immature env mw h → mapFind (before ++ rest) vchName = some e →
      (∀ wtx ok, Call.CommitTransaction vchName wtx ok ∉
        (sendPasses env names fuel before rest mw).calls) ∧
      Call.EraseNameFirstUpdate vchName ∉ (sendPasses env names fuel before rest mw).calls ∧
      Call.NeverReturns ∉ (sendPasses env names fuel before rest mw).calls ∧
      mapFind (sendPasses env names fuel before rest mw).kept vchName = some e := by
  intro fuel
  induction fuel with
  | zero =>
    intro before rest mw e him hentry
    have hp := sendLoop_immature env hframe names vchName h hname rest false mw him
    simp only [sendPasses]
    refine ⟨hp.1, hp.2.1, sendLoop_never_returns env names rest false mw, ?_⟩
    rw [mapFind_append_congr before _ rest vchName hp.2.2.1]
    exact hentry
  | succ n ih =>
    intro before rest mw e him hentry
    have hp := sendLoop_immature env hframe names vchName h hname rest false mw him
    have hnr := sendLoop_never_returns env names rest false mw
    have hmap : mapFind (before ++ (sendLoop env names false rest mw).kept) vchName = some e := by
      rw [mapFind_append_congr before _ rest vchName hp.2.2.1]
      exact hentry
    rw [sendPasses]
    by_cases hinc : Call.IncrementEnd ∈ (sendLoop env names false rest mw).calls
    · by_cases hempty : before ++ (sendLoop env names false rest mw).kept = []
      · rw [hempty] at hmap
        simp [mapFind] at hmap
      · simp only [hinc, hempty, if_true, if_false]
        generalize min (env.endIncrement (before ++ (sendLoop env names false rest mw).kept).length)
          ((before ++ (sendLoop env names false rest mw).kept).length - 1) = i
        have ih' := ih ((before ++ (sendLoop env names false rest mw).kept).take i)
          ((before ++ (sendLoop env names false rest mw).kept).drop i)
          (sendLoop env names false rest mw).mapWallet e
          (sendLoop_wallet_immature env hframe names h rest false mw him)
          (by rw [List.take_append_drop]; exact hmap)
        refine ⟨?_, ?_, ?_, ih'.2.2.2⟩
        · intro wtx ok hmem
          rcases List.mem_append.mp hmem with h1 | h1
          · exact hp.1 wtx ok h1
          · exact ih'.1 wtx ok h1
        · intro hmem
          rcases List.mem_append.mp hmem with h1 | h1
          · exact hp.2.1 h1
          · exact ih'.2.1 h1
        · intro hmem
          rcases List.mem_append.mp hmem with h1 | h1
          · exact hnr h1
          · exact ih'.2.2.1 h1
    · simp only [hinc, if_false]
      exact ⟨hp.1, hp.2.1, hnr, hmap⟩

/-- Claim C1. Provided `CommitTransaction` keeps the transactions already in
the wallet at their depth, a run of `sendPendingNameFirstUpdates` never calls
`CommitTransaction` for an entry whose originating transaction is in the
wallet with depth below `MIN_FIRSTUPDATE_DEPTH`; that entry (rand, data and
stored transaction) is still found under its name afterwards, and
`EraseNameFirstUpdate` is not called for it. This covers the runs in which
the iterator is incremented past the end and the loop examines entries again:
the entry passes the depth test at every examination, and with the entry in
the map the run returns. -/
theorem sendPending_keeps_immature (env : Env) (s : State) (hframe : CommitKeepsDepth env)
    (vchName : Vch) (e : PreparedNameFirstUpdate) (h : uint256) (wtxIn : CWalletTx)
    (hentry : mapFind s.mapMyNameFirstUpdate vchName = some e)
    (hname : mapFind s.mapMyNames vchName = some h)
    (hwallet : mapFind s.wallet.mapWallet h = some wtxIn)
    (hdepth : env.GetDepthInMainChain wtxIn < env.MIN_FIRSTUPDATE_DEPTH) :
    (∀ wtx ok, Call.CommitTransaction vchName wtx ok ∉ (sendPendingNameFirstUpdates env s).2) ∧
    mapFind (sendPendingNameFirstUpdates env s).1.mapMyNameFirstUpdate vchName = some e ∧
    Call.EraseNameFirstUpdate vchName ∉ (sendPendingNameFirstUpdates env s).2 ∧
    Call.NeverReturns ∉ (sendPendingNameFirstUpdates env s).2 := by
  have key := sendPasses_immature env hframe s.mapMyNames vchName h hname
    s.mapMyNameFirstUpdate.length [] s.mapMyNameFirstUpdate s.wallet.mapWallet e
    ⟨wtxIn, hwallet, hdepth⟩ (by simpa using hentry)
  exact ⟨key.1, key.2.2.2, key.2.1, key.2.2.1⟩

/-- Claim C1 at `demoWrapState`: the name `b`, whose transaction 11 has depth
6, below the threshold 12, is examined and kept; the name `c` after it is
erased for its missing transaction, the iterator is incremented past the end
and lands on `b` again, which is examined a second time and kept. -/
theorem sendPending_keeps_immature_witness :
    (sendPendingNameFirstUpdates demoEnv demoWrapState).2 =
      [Call.GetDepthInMainChain [98] (some (demoNameNewTx 1 95)),
       Call.EraseNameFirstUpdate [99],
       Call.GetDepthInMainChain [99] none,
       Call.IncrementEnd,
       Call.GetDepthInMainChain [98] (some (demoNameNewTx 1 95))] ∧
    (∀ wtx ok, Call.CommitTransaction [98] wtx ok ∉
      (sendPendingNameFirstUpdates demoEnv demoWrapState).2) ∧
    mapFind (sendPendingNameFirstUpdates demoEnv demoWrapState).1.mapMyNameFirstUpdate [98] =
      some { rand := 6, vchData := [2], wtx := demoRevealTx 11 } ∧
    Call.EraseNameFirstUpdate [98] ∉ (sendPendingNameFirstUpdates demoEnv demoWrapState).2 ∧
    Call.NeverReturns ∉ (sendPendingNameFirstUpdates demoEnv demoWrapState).2 :=
  ⟨by decide,
   sendPending_keeps_immature demoEnv demoWrapState demoEnv_commitKeepsDepth [98]
    { rand := 6, vchData := [2], wtx := demoRevealTx 11 } 11 (demoNameNewTx 1 95)
    (by decide) (by decide) (by decide) (by decide)⟩

/-- The run at `demoLoneState`: the only entry is erased for its missing
transaction, the depth read through the past-the-end iterator is below the
threshold, and the second `mi++` meets the end iterator of the emptied map:
the run does not return. -/
theorem sendPending_never_returns_on_emptied_map :
    (sendPendingNameFirstUpdates demoEnv demoLoneState).2 =
      [Call.EraseNameFirstUpdate [99], Call.GetDepthInMainChain [99] none,
       Call.IncrementEnd, Call.NeverReturns] := by
  decide

theorem mature_commit (env : Env) (hframe : CommitKeepsDepth env)
    (mw : List (uint256 × CWalletTx)) (wtx : CWalletTx) (h : uint256)
    (hm : Mature env mw h) : Mature env (env.CommitTransaction mw wtx).2 h := by
  obtain ⟨t, ht, hd⟩ := hm
  obtain ⟨t', ht', hd'⟩ := hframe mw wtx h t ht
  exact ⟨t', ht', by rw [hd']; exact hd⟩

/-- A name that is not among the entries still to visit gets no
`CommitTransaction` call and is not among the entries kept. -/
theorem sendLoop_absent (env : Env) (names : List (Vch × uint256)) (vchName : Vch) :
    ∀ (l : List (Vch × PreparedNameFirstUpdate)) (skip : Bool)
      (mw : List (uint256 × CWalletTx)), vchName ∉ l.map Prod.fst →
      (sendLoop env names skip l mw).calls.filter (isCommitFor vchName) = [] ∧
      mapFind (sendLoop env names skip l mw).kept vchName = none := by
  intro l
  induction l with
  | nil => intro skip mw _; cases skip <;> simp [sendLoop, mapFind, isCommitFor]
  | cons x rest ih =>
    intro skip mw hmem
    obtain ⟨k, e⟩ := x
    have hk : ¬ k = vchName := fun h => hmem (by simp [h])
    have hrest : vchName ∉ rest.map Prod.fst := fun h => hmem (by simp at h ⊢; exact Or.inr h)
    cases skip with
    | true =>
      have ih' := ih false mw hrest
      simp only [sendLoop, mapFind, hk, if_false]
      exact ih'
    | false =>
      cases h1 : mapFind names k with
      | none =>
        have ih' := ih false mw hrest
        simp only [sendLoop, h1]
        exact ⟨by simp [List.filter_cons, isCommitFor, ih'.1], ih'.2⟩
      | some h' =>
        cases h2 : mapFind mw h' with
        | none =>
          have ih' := ih (decide (env.endDepth < env.MIN_FIRSTUPDATE_DEPTH)) mw hrest
          simp only [sendLoop, h1, h2]
          exact ⟨by simp [List.filter_cons, isCommitFor, ih'.1], ih'.2⟩
        | some wtxIn =>
          by_cases h3 : env.GetDepthInMainChain wtxIn < env.MIN_FIRSTUPDATE_DEPTH
          · have ih' := ih false mw hrest
            simp only [sendLoop, h1, h2, h3, if_true]
            exact ⟨by simp [List.filter_cons, isCommitFor, ih'.1],
              by simp only [mapFind, hk, if_false]; exact ih'.2⟩
          · have ih' := ih false (env.CommitTransaction mw e.wtx).2 hrest
            simp only [sendLoop, h1, h2, h3, if_false]
            exact ⟨by simp [List.filter_cons, isCommitFor, ih'.1, hk], ih'.2⟩

/-- The intended behaviour for a mature entry, which holds when the depth read
through the past-the-end iterator is not below the threshold (so that no entry
is stepped over): in a store without duplicate names, exactly one
`CommitTransaction` call is made for the entry, with its stored transaction,
its record is erased and the entry is removed, whatever the call returns. -/
theorem sendLoop_mature (env : Env) (hframe : CommitKeepsDepth env)
    (hend : env.MIN_FIRSTUPDATE_DEPTH ≤ env.endDepth)
    (names : List (Vch × uint256)) (vchName : Vch) (h : uint256)
    (hname : mapFind names vchName = some h) :
    ∀ (l : List (Vch × PreparedNameFirstUpdate)) (mw : List (uint256 × CWalletTx))
      (e : PreparedNameFirstUpdate), (l.map Prod.fst).Nodup →
      mapFind l vchName = some e → Mature env mw h →
      (∃ ok, (sendLoop env names false l mw).calls.filter (isCommitFor vchName) =
        [Call.CommitTransaction vchName e.wtx ok]) ∧
      Call.EraseNameFirstUpdate vchName ∈ (sendLoop env names false l mw).calls ∧
      mapFind (sendLoop env names false l mw).kept vchName = none := by
  have hskip : decide (env.endDepth < env.MIN_FIRSTUPDATE_DEPTH) = false := by
    simp; omega
  intro l
  induction l with
  | nil => intro mw e _ hf; simp [mapFind] at hf
  | cons x rest ih =>
    intro mw e hnd hf hm
    obtain ⟨k, e0⟩ := x
    simp only [List.map_cons, List.nodup_cons] at hnd
    by_cases hk : k = vchName
    · subst hk
      simp only [mapFind, if_true] at hf
      cases hf
      obtain ⟨t, ht, hd⟩ := hm
      have hab := sendLoop_absent env names k rest false
        (env.CommitTransaction mw e.wtx).2 hnd.1
      simp only [sendLoop, hname, ht, hd, if_false]
      refine ⟨⟨(env.CommitTransaction mw e.wtx).1, ?_⟩, by simp, hab.2⟩
      simp [List.filter_cons, isCommitFor, hab.1]
    · simp only [mapFind, hk, if_false] at hf
      cases h1 : mapFind names k with
      | none =>
        have ih' := ih mw e hnd.2 hf hm
        simp only [sendLoop, h1]
        obtain ⟨⟨ok, hc⟩, he, hkp⟩ := ih'
        exact ⟨⟨ok, by simp [List.filter_cons, isCommitFor, hc]⟩,
          List.mem_cons_of_mem _ he, hkp⟩
      | some h' =>
        cases h2 : mapFind mw h' with
        | none =>
          have ih' := ih mw e hnd.2 hf hm
          simp only [sendLoop, h1, h2, hskip]
          obtain ⟨⟨ok, hc⟩, he, hkp⟩ := ih'
          exact ⟨⟨ok, by simp [List.filter_cons, isCommitFor, hc]⟩,
            List.mem_cons_of_mem _ (List.mem_cons_of_mem _ he), hkp⟩
        | some wtxIn =>
          by_cases h3 : env.GetDepthInMainChain wtxIn < env.MIN_FIRSTUPDATE_DEPTH
          · have ih' := ih mw e hnd.2 hf hm
            simp only [sendLoop, h1, h2, h3, if_true]
            obtain ⟨⟨ok, hc⟩, he, hkp⟩ := ih'
            exact ⟨⟨ok, by simp [List.filter_cons, isCommitFor, hc]⟩,
              List.mem_cons_of_mem _ he, by simp only [mapFind, hk, if_false]; exact hkp⟩
          · have ih' := ih (env.CommitTransaction mw e0.wtx).2 e hnd.2 hf
              (mature_commit env hframe mw e0.wtx h hm)
            simp only [sendLoop, h1, h2, h3, if_false]
            obtain ⟨⟨ok, hc⟩, he, hkp⟩ := ih'
            exact ⟨⟨ok, by simp [List.filter_cons, isCommitFor, hc, hk]⟩,
              List.mem_cons_of_mem _ (List.mem_cons_of_mem _ (List.mem_cons_of_mem _ he)), hkp⟩

/-- When the depth read through the past-the-end iterator is not below the
threshold, no pass increments the past-the-end iterator. -/
theorem sendLoop_no_increment_end (env : Env)
    (hend : env.MIN_FIRSTUPDATE_DEPTH ≤ env.endDepth) (names : List (Vch × uint256)) :
    ∀ (l : List (Vch × PreparedNameFirstUpdate)) (mw : List (uint256 × CWalletTx)),
      Call.IncrementEnd ∉ (sendLoop env names false l mw).calls := by
  have hskip : decide (env.endDepth < env.MIN_FIRSTUPDATE_DEPTH) = false := by
    simp; omega
  intro l
  induction l with
  | nil => intro mw; simp [sendLoop]
  | cons x rest ih =>
    intro mw
    obtain ⟨k, e⟩ := x
    cases h1 : mapFind names k with
    | none => simp [sendLoop, h1, ih mw]
    | some h' =>
      cases h2 : mapFind mw h' with
      | none => simp [sendLoop, h1, h2, hskip, ih mw]
      | some wtxIn =>
        by_cases h3 : env.GetDepthInMainChain wtxIn < env.MIN_FIRSTUPDATE_DEPTH
        · simp [sendLoop, h1, h2, h3, ih mw]
        · simp [sendLoop, h1, h2, h3, ih _]

/-- A loop whose first pass does not increment the past-the-end iterator
consists of that pass. -/
theorem sendPasses_single (env : Env) (names : List (Vch × uint256)) (fuel : Nat)
    (before rest : List (Vch × PreparedNameFirstUpdate)) (mw : List (uint256 × CWalletTx))
    (hinc : Call.IncrementEnd ∉ (sendLoop env names false rest mw).calls) :
    sendPasses env names fuel before rest mw =
      { kept := before ++ (sendLoop env names false rest mw).kept
        mapWallet := (sendLoop env names false rest mw).mapWallet
        calls := (sendLoop env names false rest mw).calls } := by
  cases fuel with
  | zero => simp [sendPasses]
  | succ n => simp [sendPasses, hinc]

/-- The intended behaviour of `sendPendingNameFirstUpdates` for a mature
entry, under the assumptions of `sendLoop_mature`. -/
theorem sendPending_commits_mature_when_no_skip (env : Env) (s : State)
    (hframe : CommitKeepsDepth env) (hend : env.MIN_FIRSTUPDATE_DEPTH ≤ env.endDepth)
    (vchName : Vch) (e : PreparedNameFirstUpdate) (h : uint256) (wtxIn : CWalletTx)
    (hnd : (s.mapMyNameFirstUpdate.map Prod.fst).Nodup)
    (hentry : mapFind s.mapMyNameFirstUpdate vchName = some e)
    (hname : mapFind s.mapMyNames vchName = some h)
    (hwallet : mapFind s.wallet.mapWallet h = some wtxIn)
    (hdepth : ¬ env.GetDepthInMainChain wtxIn < env.MIN_FIRSTUPDATE_DEPTH) :
    (∃ ok, (sendPendingNameFirstUpdates env s).2.filter (isCommitFor vchName) =
      [Call.CommitTransaction vchName e.wtx ok]) ∧
    Call.EraseNameFirstUpdate vchName ∈ (sendPendingNameFirstUpdates env s).2 ∧
    mapFind (sendPendingNameFirstUpdates env s).1.mapMyNameFirstUpdate vchName = none := by
  have hone := sendPasses_single env s.mapMyNames s.mapMyNameFirstUpdate.length []
    s.mapMyNameFirstUpdate s.wallet.mapWallet
    (sendLoop_no_increment_end env hend s.mapMyNames s.mapMyNameFirstUpdate s.wallet.mapWallet)
  have key := sendLoop_mature env hframe hend s.mapMyNames vchName h hname
    s.mapMyNameFirstUpdate s.wallet.mapWallet e hnd hentry ⟨wtxIn, hwallet, hdepth⟩
  simp only [sendPendingNameFirstUpdates, hone, List.nil_append]
  exact key

/-- Claim C2, evaluated at `demoSkipState`. The name `c` has its originating
transaction 12 in the wallet at depth 21, not below the threshold 12, and
directly follows the name `a`, whose transaction is missing from the wallet.
With the depth read through the past-the-end iterator being 0, the run erases
`a` and steps over `c`: no `CommitTransaction` call is made and `c` is still
in `mapMyNameFirstUpdate` with its persisted record not erased. -/
theorem sendPending_skips_mature_entry :
    mapFind demoSkipState.mapMyNames [99] = some 12 ∧
    mapFind demoSkipState.wallet.mapWallet 12 = some (demoNameNewTx 2 80) ∧
    ¬ demoEnv.GetDepthInMainChain (demoNameNewTx 2 80) < demoEnv.MIN_FIRSTUPDATE_DEPTH ∧
    (sendPendingNameFirstUpdates demoEnv demoSkipState).2 =
      [Call.EraseNameFirstUpdate [97], Call.GetDepthInMainChain [97] none] ∧
    (sendPendingNameFirstUpdates demoEnv demoSkipState).1.mapMyNameFirstUpdate =
      [([99], { rand := 7, vchData := [3], wtx := demoRevealTx 12 })] := by
  decide

/-- Claim C3, evaluated at `demoState`. The name `a` has the transaction id 10
recorded in `mapMyNames`, and 10 is missing from the wallet. The run erases
`a` and then reads a depth through the past-the-end iterator
(`Call.GetDepthInMainChain [97] none`); the value read being 0, the next
entry `b` is stepped over without being examined (no depth is read for it),
and the loop goes on with `c`. -/
theorem sendPending_reads_depth_of_missing_tx :
    mapFind demoState.mapMyNames [97] = some 10 ∧
    mapFind demoState.wallet.mapWallet 10 = none ∧
    (sendPendingNameFirstUpdates demoEnv demoState).2 =
      [Call.EraseNameFirstUpdate [97],
       Call.GetDepthInMainChain [97] none,
       Call.GetDepthInMainChain [99] (some (demoNameNewTx 2 80)),
       Call.CommitTransaction [99] (demoRevealTx 12) true,
       Call.EraseNameFirstUpdate [99]] ∧
    (sendPendingNameFirstUpdates demoEnv demoState).1.mapMyNameFirstUpdate =
      [([98], { rand := 6, vchData := [2], wtx := demoRevealTx 11 })] := by
  decide

/-! ## nameFirstUpdateCreateTx -/

/-- Claim C4. `nameFirstUpdateCreateTx` reports the first violated
precondition: pending operations give the pending-operations message whatever
else holds; otherwise a live transaction of the name gives the already-active
message; otherwise a commitment id missing from the wallet gives the
not-in-wallet message; in these three cases no key is taken from the key pool.
A failure of the decoding or of the hash comparison is reported only when all
three preconditions hold, and the six messages are pairwise distinct. -/
theorem createTx_reports_first_violation (env : Env) (s : State) (wtx0 : CWalletTx)
    (vchName : Vch) (wtxInHash : uint256) (rand : Nat) (vchValue : Vch) :
    (hasPending s vchName = true →
      (nameFirstUpdateCreateTx env s wtx0 vchName wtxInHash rand vchValue).1 = msgPending ∧
      (nameFirstUpdateCreateTx env s wtx0 vchName wtxInHash rand vchValue).2.2 = s.wallet) ∧
    (hasPending s vchName = false → (env.GetTxOfName vchName).isSome = true →
      (nameFirstUpdateCreateTx env s wtx0 vchName wtxInHash rand vchValue).1 = msgActive ∧
      (nameFirstUpdateCreateTx env s wtx0 vchName wtxInHash rand vchValue).2.2 = s.wallet) ∧
    (hasPending s vchName = false → env.GetTxOfName vchName = none →
      mapFind s.wallet.mapWallet wtxInHash = none →
      (nameFirstUpdateCreateTx env s wtx0 vchName wtxInHash rand vchValue).1 = msgNotInWallet ∧
      (nameFirstUpdateCreateTx env s wtx0 vchName wtxInHash rand vchValue).2.2 = s.wallet) ∧
    ((nameFirstUpdateCreateTx env s wtx0 vchName wtxInHash rand vchValue).1 ∈
        [msgNotNameNew, msgNotNameTx, msgDifferentRand] →
      hasPending s vchName = false ∧ env.GetTxOfName vchName = none ∧
      (mapFind s.wallet.mapWallet wtxInHash).isSome = true) ∧
    [msgPending, msgActive, msgNotInWallet, msgNotNameNew, msgNotNameTx,
      msgDifferentRand].Nodup := by
  refine ⟨?_, ?_, ?_, ?_, by decide⟩
  · intro hp
    simp [nameFirstUpdateCreateTx, hp]
  · intro hp ha
    obtain ⟨t, ht⟩ := Option.isSome_iff_exists.mp ha
    simp [nameFirstUpdateCreateTx, hp, ht]
  · intro hp ha hw
    simp [nameFirstUpdateCreateTx, hp, ha, hw]
  · intro hmsg
    cases hp : hasPending s vchName with
    | true =>
      have h1 : (nameFirstUpdateCreateTx env s wtx0 vchName wtxInHash rand vchValue).1
          = msgPending := by simp [nameFirstUpdateCreateTx, hp]
      rw [h1] at hmsg
      exact absurd hmsg (by decide)
    | false =>
      cases ha : env.GetTxOfName vchName with
      | some t =>
        have h1 : (nameFirstUpdateCreateTx env s wtx0 vchName wtxInHash rand vchValue).1
            = msgActive := by simp [nameFirstUpdateCreateTx, hp, ha]
        rw [h1] at hmsg
        exact absurd hmsg (by decide)
      | none =>
        cases hw : mapFind s.wallet.mapWallet wtxInHash with
        | none =>
          have h1 : (nameFirstUpdateCreateTx env s wtx0 vchName wtxInHash rand vchValue).1
              = msgNotInWallet := by simp [nameFirstUpdateCreateTx, hp, ha, hw]
          rw [h1] at hmsg
          exact absurd hmsg (by decide)
        | some t => simp

/-- Claim C4 at concrete inputs: the name `d` with a pending operation and a
live transaction gives the pending-operations message; without the pending
operation it gives the already-active message; the name `a` of `demoState`,
whose transaction 10 is missing, gives the not-in-wallet message. -/
theorem createTx_reports_first_violation_witness :
    (nameFirstUpdateCreateTx demoBusyEnv demoBusyState CWalletTx.null [100] 13 5 []).1
      = msgPending ∧
    (nameFirstUpdateCreateTx demoBusyEnv demoState CWalletTx.null [100] 13 5 []).1
      = msgActive ∧
    (nameFirstUpdateCreateTx demoEnv demoState CWalletTx.null [97] 10 5 []).1
      = msgNotInWallet :=
  ⟨((createTx_reports_first_violation demoBusyEnv demoBusyState CWalletTx.null
      [100] 13 5 []).1 (by decide)).1,
   ((createTx_reports_first_violation demoBusyEnv demoState CWalletTx.null
      [100] 13 5 []).2.1 (by decide) (by decide)).1,
   ((createTx_reports_first_violation demoEnv demoState CWalletTx.null
      [97] 10 5 []).2.2.1 (by decide) (by decide) (by decide)).1⟩

/-- When every name output of a transaction is an `OP_NAME_NEW` output whose
hash satisfies `P`, the scan ends without error with a hash satisfying `P`,
and it has found a name output when the transaction carries one. -/
theorem scanNameOutputs_all_new (env : Env) (P : Vch → Prop) :
    ∀ (outs : List CTxOut) (acc : Vch × Bool),
      (∀ out ∈ outs, ∀ op vvch, env.DecodeNameScript out.scriptPubKey = some (op, vvch) →
        op = env.OP_NAME_NEW ∧ P (vvch.headD [])) →
      (acc.2 = true → P acc.1) →
      ∃ vchHash found, scanNameOutputs env outs acc = Except.ok (vchHash, found) ∧
        (found = true → P vchHash) ∧
        ((acc.2 = true ∨ ∃ out ∈ outs, (env.DecodeNameScript out.scriptPubKey).isSome = true) →
          found = true) := by
  intro outs
  induction outs with
  | nil =>
    intro acc _ hacc
    refine ⟨acc.1, acc.2, rfl, hacc, ?_⟩
    rintro (h | ⟨out, hout, _⟩)
    · exact h
    · exact absurd hout (List.not_mem_nil _)
  | cons out outs ih =>
    intro acc hall hacc
    have hall' : ∀ o ∈ outs, ∀ op vvch, env.DecodeNameScript o.scriptPubKey = some (op, vvch) →
        op = env.OP_NAME_NEW ∧ P (vvch.headD []) :=
      fun o ho => hall o (List.mem_cons_of_mem _ ho)
    cases hd : env.DecodeNameScript out.scriptPubKey with
    | none =>
      obtain ⟨vh, found, h1, h2, h3⟩ := ih acc hall' hacc
      refine ⟨vh, found, ?_, h2, ?_⟩
      · simp [scanNameOutputs, hd, h1]
      · rintro (h | ⟨o, ho, hsome⟩)
        · exact h3 (Or.inl h)
        · rcases List.mem_cons.mp ho with h4 | h4
          · subst h4; simp [hd] at hsome
          · exact h3 (Or.inr ⟨o, h4, hsome⟩)
    | some r =>
      obtain ⟨op, vvch⟩ := r
      obtain ⟨hop, hP⟩ := hall out (List.mem_cons_self _ _) op vvch hd
      obtain ⟨vh, found, h1, h2, h3⟩ := ih (vvch.headD [], true) hall' (fun _ => hP)
      refine ⟨vh, found, ?_, h2, fun _ => h3 (Or.inl rfl)⟩
      simp only [scanNameOutputs, hd, hop, ne_eq, not_true_eq_false, if_false]
      exact h1

/-- Claim C5. For a name with a pending entry and an originating transaction
id, without pending operations and without a live transaction, whose
commitment transaction is in the wallet and carries a name output, every name
output of it being an `OP_NAME_NEW` output with a hash different from
`Hash160(getvch(rand) ++ name)` for the stored rand: `nameFirstUpdatePrepare`
returns the different-random-value message, `mapMyNameFirstUpdate` and
`mapMyNames` are unchanged and `WriteNameFirstUpdate` is not called. -/
theorem prepare_rejects_different_rand (env : Env) (s : State) (vchName vchValue : Vch)
    (e : PreparedNameFirstUpdate) (h : uint256) (wtxIn : CWalletTx)
    (hentry : mapFind s.mapMyNameFirstUpdate vchName = some e)
    (hname : mapFind s.mapMyNames vchName = some h)
    (hpend : hasPending s vchName = false)
    (hfree : env.GetTxOfName vchName = none)
    (hwallet : mapFind s.wallet.mapWallet h = some wtxIn)
    (hnew : ∃ out ∈ wtxIn.vout, (env.DecodeNameScript out.scriptPubKey).isSome = true)
    (hall : ∀ out ∈ wtxIn.vout, ∀ op vvch,
      env.DecodeNameScript out.scriptPubKey = some (op, vvch) →
      op = env.OP_NAME_NEW ∧
      env.uint160OfVch (vvch.headD []) ≠ env.Hash160 (env.getvch e.rand ++ vchName)) :
    (nameFirstUpdatePrepare env s vchName vchValue).1 = msgDifferentRand ∧
    (nameFirstUpdatePrepare env s vchName vchValue).2.1.mapMyNameFirstUpdate
      = s.mapMyNameFirstUpdate ∧
    (nameFirstUpdatePrepare env s vchName vchValue).2.1.mapMyNames = s.mapMyNames ∧
    (nameFirstUpdatePrepare env s vchName vchValue).2.2 = [] := by
  obtain ⟨vh, found, h1, h2, h3⟩ := scanNameOutputs_all_new env
    (fun v => env.uint160OfVch v ≠ env.Hash160 (env.getvch e.rand ++ vchName))
    wtxIn.vout ([], false) hall (by simp)
  have hfound : found = true := h3 (Or.inr hnew)
  subst hfound
  have hne := h2 rfl
  have hc : (nameFirstUpdateCreateTx env s CWalletTx.null vchName h e.rand vchValue).1
      = msgDifferentRand := by
    simp [nameFirstUpdateCreateTx, hpend, hfree, hwallet, h1, hne]
  have hmsg : msgDifferentRand ≠ "" := by decide
  simp only [nameFirstUpdatePrepare, hname, hentry, hc]
  simp [hmsg]

/-- Claim C5 at `demoTamperedState`: the name `a` has rand 5 recorded, its
commitment transaction 11 carries the hash 1. -/
theorem prepare_rejects_different_rand_witness :
    (nameFirstUpdatePrepare demoEnv demoTamperedState [97] [8]).1 = msgDifferentRand ∧
    (nameFirstUpdatePrepare demoEnv demoTamperedState [97] [8]).2.1.mapMyNameFirstUpdate
      = demoTamperedState.mapMyNameFirstUpdate ∧
    (nameFirstUpdatePrepare demoEnv demoTamperedState [97] [8]).2.1.mapMyNames
      = demoTamperedState.mapMyNames ∧
    (nameFirstUpdatePrepare demoEnv demoTamperedState [97] [8]).2.2 = [] :=
  prepare_rejects_different_rand demoEnv demoTamperedState [97] [8]
    { rand := 5, vchData := [1], wtx := demoRevealTx 11 } 11 (demoNameNewTx 1 95)
    (by decide) (by decide) (by decide) (by decide) (by decide) (by decide)
    (by
      intro out hout op vvch hd
      have hout' : out = (demoNameNewTx 1 95).vout.head (by decide) := by
        simpa [demoNameNewTx] using hout
      subst hout'
      have hd' : (1, [vchOfUint160 1]) = (op, vvch) := Option.some.inj hd
      cases hd'
      decide)

theorem wrapInt64_of_range (x : Int) (h1 : -9223372036854775808 ≤ x)
    (h2 : x ≤ 9223372036854775807) : wrapInt64 x = x := by
  unfold wrapInt64
  omega

theorem wrapInt32_of_range (x : Int) (h1 : -2147483648 ≤ x) (h2 : x ≤ 2147483647) :
    wrapInt32 x = x := by
  unfold wrapInt32
  omega

/-- Without overflow the rounding is `(f + CENT - 1) / CENT * CENT`. -/
theorem roundUpToCent_eq (C f : Int) (hC : 0 < C) (hf : 0 ≤ f)
    (hov : f + C - 1 ≤ 9223372036854775807) :
    roundUpToCent C f = (f + C - 1) / C * C := by
  have hq0 : 0 ≤ (f + C - 1) / C := Int.ediv_nonneg (by omega) (by omega)
  have hmod0 := Int.emod_nonneg (f + C - 1) (ne_of_gt hC)
  have hdm := Int.ediv_add_emod (f + C - 1) C
  have hqC : (f + C - 1) / C * C ≤ f + C - 1 := by
    have : (f + C - 1) / C * C = C * ((f + C - 1) / C) := by ring
    omega
  have hq1 : (f + C - 1) / C ≤ (f + C - 1) / C * C := by nlinarith
  unfold roundUpToCent
  simp only []
  rw [wrapInt64_of_range (C - 1) (by omega) (by omega)]
  have e1 : f + (C - 1) = f + C - 1 := by ring
  rw [e1, wrapInt64_of_range (f + C - 1) (by omega) hov]
  rw [Int.tdiv_eq_ediv (by omega) (by omega)]
  have e2 : wrapInt64 ((f + C - 1) / C) = (f + C - 1) / C :=
    wrapInt64_of_range _ (by omega) (by omega)
  rw [e2]
  exact wrapInt64_of_range _ (by omega) (by omega)

/-- The rounding and the outputs built from it: for a non-negative fee `f`
with `f + CENT - 1` within `int64`, `roundUpToCent` is the least multiple of `CENT`
that is at least `f`: it is a multiple of `CENT`, at least `f`, below
`f + CENT`, not above any multiple of `CENT` that is at least `f`, equal to
`f` when `f` is a multiple of `CENT`, and 0 exactly when `f` is 0, in which
case `vecSend` holds the name output only. -/
theorem fee_rounds_up_to_cent (env : Env) (f : Int) (scriptPubKey : CScript) (nValue : Int)
    (hC : 0 < env.CENT) (hf : 0 ≤ f) (hov : f + env.CENT - 1 ≤ 9223372036854775807) :
    env.CENT ∣ roundUpToCent env.CENT f ∧
    f ≤ roundUpToCent env.CENT f ∧
    roundUpToCent env.CENT f < f + env.CENT ∧
    (∀ m, env.CENT ∣ m → f ≤ m → roundUpToCent env.CENT f ≤ m) ∧
    (env.CENT ∣ f → roundUpToCent env.CENT f = f) ∧
    (roundUpToCent env.CENT f = 0 ↔ f = 0) ∧
    (f = 0 → buildVecSend env scriptPubKey nValue (roundUpToCent env.CENT f)
      = [(scriptPubKey, nValue)]) ∧
    (f ≠ 0 → buildVecSend env scriptPubKey nValue (roundUpToCent env.CENT f)
      = [(scriptPubKey, nValue), ([ScriptItem.op env.OP_RETURN], roundUpToCent env.CENT f)]) := by
  have heq := roundUpToCent_eq env.CENT f hC hf hov
  generalize env.CENT = C at *
  have hmod0 := Int.emod_nonneg (f + C - 1) (ne_of_gt hC)
  have hmod1 := Int.emod_lt_of_pos (f + C - 1) hC
  have hdm := Int.ediv_add_emod (f + C - 1) C
  have hcomm : (f + C - 1) / C * C = C * ((f + C - 1) / C) := by ring
  have hdvd : C ∣ roundUpToCent C f := by rw [heq]; exact Dvd.intro_left _ rfl
  have hge : f ≤ roundUpToCent C f := by rw [heq]; omega
  have hlt : roundUpToCent C f < f + C := by rw [heq]; omega
  have hleast : ∀ m, C ∣ m → f ≤ m → roundUpToCent C f ≤ m := by
    intro m hm hfm
    obtain ⟨j, rfl⟩ := hm
    obtain ⟨q, hq⟩ := hdvd
    rw [hq] at hlt ⊢
    by_contra hcon
    have h1 : C * j < C * q := not_le.mp hcon
    have h2 : j < q := lt_of_mul_lt_mul_left h1 (le_of_lt hC)
    have h3 : C * (j + 1) ≤ C * q := Int.mul_le_mul_of_nonneg_left (by omega) (le_of_lt hC)
    have h4 : C * (j + 1) = C * j + C := by ring
    omega
  have hmul : C ∣ f → roundUpToCent C f = f := fun hd =>
    le_antisymm (hleast f hd (le_refl f)) hge
  have hzero : roundUpToCent C f = 0 ↔ f = 0 := by
    constructor
    · intro h0; omega
    · intro h0
      have := hmul (h0 ▸ dvd_zero C)
      omega
  refine ⟨hdvd, hge, hlt, hleast, hmul, hzero, ?_, ?_⟩
  · intro h0
    simp [buildVecSend, hzero.mpr h0]
  · intro h0
    have : roundUpToCent C f ≠ 0 := fun h => h0 (hzero.mp h)
    simp [buildVecSend, this]

/-- The rounding at `CENT = 1000000` and the fee 1500000. -/
theorem fee_rounds_up_to_cent_witness :
    roundUpToCent demoEnv.CENT 1500000 = 2000000 ∧
    buildVecSend demoEnv [] 1000000 (roundUpToCent demoEnv.CENT 1500000)
      = [([], 1000000), ([ScriptItem.op 106], 2000000)] := by
  have h := fee_rounds_up_to_cent demoEnv 1500000 [] 1000000 (by decide) (by decide)
    (by decide)
  have hv : roundUpToCent demoEnv.CENT 1500000 = 2000000 := by decide
  refine ⟨hv, ?_⟩
  rw [h.2.2.2.2.2.2.2 (by decide), hv]
  rfl

/-! ## nameAvailable -/

/-- Claim C6, counterexample. In `demoUnreadableEnv` the latest record of
the name `d` is at height 90 (the height `GetValueOfTxPos` reports for its
position 9) and the best height is 100, so that
`currentHeight - h = 10 < 36000 = expirationDepth(h)`; the transaction of the
record cannot be read from disk, and `nameAvailable` returns true, not
false. -/
theorem nameAvailable_true_for_unreadable_live_record :
    demoUnreadableEnv.ReadName [100] = some [{ txPos := 5 }, { txPos := 9 }] ∧
    demoUnreadableEnv.GetValueOfTxPos 9 = some ([1], 77, 90) ∧
    demoUnreadableEnv.pindexBestHeight - 90 < demoUnreadableEnv.GetDisplayExpirationDepth 90 ∧
    demoUnreadableEnv.ReadFromDisk 9 = false ∧
    nameAvailable demoUnreadableEnv [100] = true := by
  decide

/-- Claim C6, amended. `nameAvailable` returns true when the name index has no
record for the name (`ReadName` fails or yields no entry), when the latest
record has height `h` with `currentHeight - h >= expirationDepth(h)`, and
when the transaction of the latest record cannot be read (`ReadFromDisk`
fails, the position is null, or `GetValueOfTxPos` fails); it returns false in
the one remaining case, the latest record being read from disk at a non-null
position at height `h` with `currentHeight - h < expirationDepth(h)`. The
height of the latest record is the one `GetValueOfTxPos` reports for the
position of the last index entry. The sums of line 445 are assumed within
the range of `int`. -/
theorem nameAvailable_cases (env : Env) (vchName : Vch) :
    (env.ReadName vchName = none → nameAvailable env vchName = true) ∧
    (env.ReadName vchName = some [] → nameAvailable env vchName = true) ∧
    (∀ vtxPos idx vchValue hash h,
      env.ReadName vchName = some vtxPos → vtxPos.getLast? = some idx →
      env.GetValueOfTxPos idx.txPos = some (vchValue, hash, h) →
      -2147483648 ≤ h + env.GetDisplayExpirationDepth h →
      h + env.GetDisplayExpirationDepth h ≤ 2147483647 →
      -2147483648 ≤ h + env.GetDisplayExpirationDepth h - env.pindexBestHeight →
      h + env.GetDisplayExpirationDepth h - env.pindexBestHeight ≤ 2147483647 →
      env.pindexBestHeight - h ≥ env.GetDisplayExpirationDepth h →
      nameAvailable env vchName = true) ∧
    (∀ vtxPos idx,
      env.ReadName vchName = some vtxPos → vtxPos.getLast? = some idx →
      (env.ReadFromDisk idx.txPos = false ∨ env.IsNull idx.txPos = true ∨
        env.GetValueOfTxPos idx.txPos = none) →
      nameAvailable env vchName = true) ∧
    (∀ vtxPos idx vchValue hash h,
      env.ReadName vchName = some vtxPos → vtxPos.getLast? = some idx →
      env.ReadFromDisk idx.txPos = true → env.IsNull idx.txPos = false →
      env.GetValueOfTxPos idx.txPos = some (vchValue, hash, h) →
      -2147483648 ≤ h + env.GetDisplayExpirationDepth h →
      h + env.GetDisplayExpirationDepth h ≤ 2147483647 →
      -2147483648 ≤ h + env.GetDisplayExpirationDepth h - env.pindexBestHeight →
      h + env.GetDisplayExpirationDepth h - env.pindexBestHeight ≤ 2147483647 →
      env.pindexBestHeight - h < env.GetDisplayExpirationDepth h →
      nameAvailable env vchName = false) := by
  refine ⟨?_, ?_, ?_, ?_, ?_⟩
  · intro h; simp [nameAvailable, h]
  · intro h; simp [nameAvailable, h]
  · intro vtxPos idx vchValue hash h hr hl hv b1 b2 b3 b4 hexp
    have w1 := wrapInt32_of_range _ b1 b2
    have w2 := wrapInt32_of_range _ b3 b4
    have hle : h + env.GetDisplayExpirationDepth h - env.pindexBestHeight ≤ 0 := by omega
    simp only [nameAvailable, hr, hl, hv, w1, w2, hle, if_true]
    cases env.ReadFromDisk idx.txPos <;> cases env.IsNull idx.txPos <;> simp
  · intro vtxPos idx hr hl hbad
    rcases hbad with hd | hn | hv
    · simp [nameAvailable, hr, hl, hd]
    · simp [nameAvailable, hr, hl, hn]
    · simp only [nameAvailable, hr, hl, hv]
      cases env.ReadFromDisk idx.txPos <;> cases env.IsNull idx.txPos <;> simp
  · intro vtxPos idx vchValue hash h hr hl hd hn hv b1 b2 b3 b4 hexp
    have w1 := wrapInt32_of_range _ b1 b2
    have w2 := wrapInt32_of_range _ b3 b4
    have hle : ¬ h + env.GetDisplayExpirationDepth h - env.pindexBestHeight ≤ 0 := by omega
    simp [nameAvailable, hr, hl, hd, hn, hv, w1, w2, hle]

/-- Claim C6, amended, at concrete inputs: the name `e` (`[101]`) has no
record; the record of the name `d` is at height 90 with expiration depth
36000, so `d` is available at height 40000, available at height 100 when its
transaction cannot be read, and not available at height 100 when it can. -/
theorem nameAvailable_cases_witness :
    nameAvailable demoEnv [101] = true ∧
    nameAvailable demoLateEnv [100] = true ∧
    nameAvailable demoUnreadableEnv [100] = true ∧
    nameAvailable demoEnv [100] = false :=
  ⟨(nameAvailable_cases demoEnv [101]).1 (by decide),
   (nameAvailable_cases demoLateEnv [100]).2.2.1 [{ txPos := 5 }, { txPos := 9 }]
     { txPos := 9 } [1] 77 90 (by decide) (by decide) (by decide) (by decide) (by decide)
     (by decide) (by decide) (by decide),
   (nameAvailable_cases demoUnreadableEnv [100]).2.2.2.1 [{ txPos := 5 }, { txPos := 9 }]
     { txPos := 9 } (by decide) (by decide) (Or.inl (by decide)),
   (nameAvailable_cases demoEnv [100]).2.2.2.2 [{ txPos := 5 }, { txPos := 9 }]
     { txPos := 9 } [1] 77 90 (by decide) (by decide) (by decide) (by decide) (by decide)
     (by decide) (by decide) (by decide) (by decide) (by decide)⟩

/-! ## nameFirstUpdatePrepare and nameNew -/

theorem mapReplace_mapReplace {K V : Type} [DecidableEq K]
    (m : List (K × V)) (k : K) (v1 v2 : V) :
    mapReplace (mapReplace m k v1) k v2 = mapReplace m k v2 := by
  induction m with
  | nil => simp [mapReplace]
  | cons x m ih =>
    obtain ⟨k', v'⟩ := x
    by_cases h1 : k' = k
    · simp [mapReplace, h1]
    · simp [mapReplace, h1, ih]

theorem mapFind_mem_keys {K V : Type} [DecidableEq K]
    (m : List (K × V)) (k : K) (v : V) (h : mapFind m k = some v) :
    k ∈ m.map Prod.fst := by
  induction m with
  | nil => simp [mapFind] at h
  | cons x m ih =>
    obtain ⟨k', v'⟩ := x
    by_cases h1 : k' = k
    · simp [h1]
    · simp only [mapFind, h1, if_false] at h
      simp [ih h]

/-- A map without duplicate keys holds exactly one entry for a key it
contains. -/
theorem one_entry_of_nodup {K V : Type} [DecidableEq K] (m : List (K × V)) (k : K)
    (hnd : (m.map Prod.fst).Nodup) (hk : k ∈ m.map Prod.fst) :
    (m.filter (fun p => decide (p.1 = k))).length = 1 := by
  induction m with
  | nil => simp at hk
  | cons x m ih =>
    obtain ⟨k', v'⟩ := x
    simp only [List.map_cons, List.nodup_cons] at hnd
    by_cases h1 : k' = k
    · subst h1
      have hnil : m.filter (fun p => decide (p.1 = k')) = [] := by
        rw [List.filter_eq_nil_iff]
        intro p hp hpk
        have hpk' : p.1 = k' := by simpa using hpk
        exact hnd.1 (hpk' ▸ List.mem_map_of_mem Prod.fst hp)
      simp [List.filter_cons, hnil]
    · have hk' : k ∈ m.map Prod.fst := by
        rcases List.mem_cons.mp hk with h2 | h2
        · exact absurd h2.symm h1
        · exact h2
      simp [List.filter_cons, h1, ih hnd.2 hk']

/-- A successful `nameFirstUpdatePrepare` found the transaction id and the
entry of the name, built a transaction with `nameFirstUpdateCreateTx`, put it
with the data into the entry and persisted the record. -/
theorem prepare_success (env : Env) (s : State) (vchName vchValue : Vch)
    (hok : (nameFirstUpdatePrepare env s vchName vchValue).1 = "") :
    ∃ h e, mapFind s.mapMyNames vchName = some h ∧
      mapFind s.mapMyNameFirstUpdate vchName = some e ∧
      (nameFirstUpdateCreateTx env s CWalletTx.null vchName h e.rand vchValue).1 = "" ∧
      (nameFirstUpdatePrepare env s vchName vchValue).2.1 =
        { s with
          wallet := (nameFirstUpdateCreateTx env s CWalletTx.null vchName h e.rand vchValue).2.2
          mapMyNameFirstUpdate := mapReplace s.mapMyNameFirstUpdate vchName
            { e with
              vchData := vchValue
              wtx := (nameFirstUpdateCreateTx env s CWalletTx.null vchName h e.rand
                vchValue).2.1 } } ∧
      (nameFirstUpdatePrepare env s vchName vchValue).2.2 =
        [Call.WriteNameFirstUpdate vchName h e.rand vchValue
          (nameFirstUpdateCreateTx env s CWalletTx.null vchName h e.rand vchValue).2.1] := by
  cases h1 : mapFind s.mapMyNames vchName with
  | none =>
    simp only [nameFirstUpdatePrepare, h1] at hok
    exact absurd hok (by decide)
  | some h =>
    cases h2 : mapFind s.mapMyNameFirstUpdate vchName with
    | none =>
      simp only [nameFirstUpdatePrepare, h1, h2] at hok
      exact absurd hok (by decide)
    | some e =>
      by_cases h3 : (nameFirstUpdateCreateTx env s CWalletTx.null vchName h e.rand vchValue).1 = ""
      · exact ⟨h, e, rfl, rfl, h3, by simp [nameFirstUpdatePrepare, h1, h2, h3],
          by simp [nameFirstUpdatePrepare, h1, h2, h3]⟩
      · simp only [nameFirstUpdatePrepare, h1, h2, ne_eq, h3, not_false_eq_true, if_true] at hok

/-- Whatever its outcome, `nameFirstUpdatePrepare` leaves `mapMyNames`, the
names of the pending store and the rand of every entry unchanged. -/
theorem prepare_keeps_rand (env : Env) (s : State) (vchName vchValue : Vch) :
    (nameFirstUpdatePrepare env s vchName vchValue).2.1.mapMyNames = s.mapMyNames ∧
    (∀ k e, mapFind s.mapMyNameFirstUpdate k = some e →
      ∃ e', mapFind (nameFirstUpdatePrepare env s vchName vchValue).2.1.mapMyNameFirstUpdate k
        = some e' ∧ e'.rand = e.rand) := by
  cases h1 : mapFind s.mapMyNames vchName with
  | none =>
    simp only [nameFirstUpdatePrepare, h1]
    exact ⟨trivial, fun k e hk => ⟨e, hk, rfl⟩⟩
  | some h =>
    cases h2 : mapFind s.mapMyNameFirstUpdate vchName with
    | none =>
      simp only [nameFirstUpdatePrepare, h1, h2]
      exact ⟨trivial, fun k e hk => ⟨e, hk, rfl⟩⟩
    | some e0 =>
      by_cases h3 : (nameFirstUpdateCreateTx env s CWalletTx.null vchName h e0.rand vchValue).1 = ""
      · refine ⟨by simp [nameFirstUpdatePrepare, h1, h2, h3], ?_⟩
        intro k e hk
        simp only [nameFirstUpdatePrepare, h1, h2, h3, ne_eq, not_true_eq_false, if_false]
        by_cases hkn : vchName = k
        · subst hkn
          rw [h2] at hk
          cases hk
          exact ⟨_, mapFind_mapReplace_self _ _ _ _ h2, rfl⟩
        · exact ⟨e, by rw [mapFind_mapReplace_ne _ _ _ _ hkn]; exact hk, rfl⟩
      · refine ⟨by simp [nameFirstUpdatePrepare, h1, h2, h3], ?_⟩
        intro k e hk
        simp only [nameFirstUpdatePrepare, h1, h2, h3, ne_eq, not_false_eq_true, if_true]
        exact ⟨e, hk, rfl⟩

theorem setRand_find (m : List (Vch × PreparedNameFirstUpdate)) (vchName : Vch) (rand : Nat) :
    ∃ e, mapFind (setRand m vchName rand) vchName = some e ∧ e.rand = rand := by
  cases h : mapFind m vchName with
  | none =>
    exact ⟨_, by simp only [setRand, h]; exact mapFind_mapSet_self _ _ _ _, rfl⟩
  | some e0 =>
    exact ⟨_, by simp only [setRand, h]; exact mapFind_mapReplace_self _ _ _ _ h, rfl⟩

/-- The outcome of `nameNew` when `SendMoney` succeeds. -/
theorem nameNew_of_send_ok (env : Env) (s : State) (rand : Nat) (vchName : Vch)
    (hok : (nameNewSendMoney env s rand vchName).1 = "") :
    (nameNew env s rand vchName).1 =
      { ok := true, err_msg := "", vchName := vchName,
        hex := env.GetHash (nameNewSendMoney env s rand vchName).2.1,
        rand := rand, hash := env.Hash160 (env.getvch rand ++ vchName) } ∧
    (∃ e, mapFind (nameNew env s rand vchName).2.1.mapMyNameFirstUpdate vchName = some e ∧
      e.rand = rand) ∧
    mapFind (nameNew env s rand vchName).2.1.mapMyNames vchName =
      some (env.GetHash (nameNewSendMoney env s rand vchName).2.1) := by
  have hp := prepare_keeps_rand env (nameNewRecord env s rand vchName) vchName []
  obtain ⟨e0, he0, hr0⟩ := setRand_find s.mapMyNameFirstUpdate vchName rand
  obtain ⟨e', he', hr'⟩ := hp.2 vchName e0 (by simpa [nameNewRecord] using he0)
  refine ⟨by simp [nameNew, hok], ⟨e', ?_, ?_⟩, ?_⟩
  · simpa [nameNew, hok] using he'
  · rw [hr', hr0]
  · simp only [nameNew, hok, ne_eq, not_true_eq_false, if_false, hp.1]
    simp only [nameNewRecord]
    exact mapFind_mapSet_self _ _ _ _

/-- Claim C8. Whenever `SendMoney` succeeds inside `nameNew`, the function
returns ok with the id of the commitment transaction, the rand and the hash
`Hash160(getvch(rand) ++ name)`, and afterwards the entry of the name in
`mapMyNameFirstUpdate` has that rand and `mapMyNames` holds that id for the
name; nothing is assumed about the automatic `nameFirstUpdatePrepare`, so this
holds whether it succeeds or fails. Whenever `SendMoney` fails, the function
returns not ok with its error, and `mapMyNameFirstUpdate` and `mapMyNames` are
unchanged. -/
theorem nameNew_records_commitment (env : Env) (s : State) (rand : Nat) (vchName : Vch) :
    ((nameNewSendMoney env s rand vchName).1 = "" →
      (nameNew env s rand vchName).1 =
        { ok := true, err_msg := "", vchName := vchName,
          hex := env.GetHash (nameNewSendMoney env s rand vchName).2.1,
          rand := rand, hash := env.Hash160 (env.getvch rand ++ vchName) } ∧
      (∃ e, mapFind (nameNew env s rand vchName).2.1.mapMyNameFirstUpdate vchName = some e ∧
        e.rand = (nameNew env s rand vchName).1.rand) ∧
      mapFind (nameNew env s rand vchName).2.1.mapMyNames vchName =
        some (nameNew env s rand vchName).1.hex) ∧
    ((nameNewSendMoney env s rand vchName).1 ≠ "" →
      (nameNew env s rand vchName).1.ok = false ∧
      (nameNew env s rand vchName).1.err_msg = (nameNewSendMoney env s rand vchName).1 ∧
      (nameNew env s rand vchName).2.1.mapMyNameFirstUpdate = s.mapMyNameFirstUpdate ∧
      (nameNew env s rand vchName).2.1.mapMyNames = s.mapMyNames) := by
  constructor
  · intro hok
    obtain ⟨hret, ⟨e, he, hr⟩, hnames⟩ := nameNew_of_send_ok env s rand vchName hok
    exact ⟨hret, ⟨e, he, by rw [hr, hret]⟩, by rw [hnames, hret]⟩
  · intro herr
    simp [nameNew, herr]

/-- Claim C8 at concrete inputs: in `demoFreshState` `SendMoney` succeeds and
the automatic prepare succeeds; in `demoBusyState` `SendMoney` succeeds and
the automatic prepare fails on the pending operation; with the amount set
above the balance `SendMoney` fails. -/
theorem nameNew_records_commitment_witness :
    (nameFirstUpdatePrepare demoEnv (nameNewRecord demoEnv demoFreshState 1234 [97]) [97] []).1
      = "" ∧
    mapFind (nameNew demoEnv demoFreshState 1234 [97]).2.1.mapMyNames [97] =
      some (nameNew demoEnv demoFreshState 1234 [97]).1.hex ∧
    (nameFirstUpdatePrepare demoBusyEnv (nameNewRecord demoBusyEnv demoBusyState 77 [100])
      [100] []).1 = msgPending ∧
    mapFind (nameNew demoBusyEnv demoBusyState 77 [100]).2.1.mapMyNames [100] =
      some (nameNew demoBusyEnv demoBusyState 77 [100]).1.hex ∧
    (nameNew demoPoorEnv demoFreshState 1234 [97]).1.ok = false :=
  ⟨by decide,
   ((nameNew_records_commitment demoEnv demoFreshState 1234 [97]).1 (by decide)).2.2,
   by decide,
   ((nameNew_records_commitment demoBusyEnv demoBusyState 77 [100]).1 (by decide)).2.2,
   ((nameNew_records_commitment demoPoorEnv demoFreshState 1234 [97]).2 (by decide)).1⟩

/-- Claim C9, counterexample. In `demoBusyState` the name `d` has a pending
operation, a live transaction (`GetTxOfName` succeeds and `nameAvailable` is
false) and an entry of an earlier `nameNew` in the pending store. `nameNew`
for `d` nevertheless returns ok, having sent the commitment with `SendMoney`,
and the entry of `d` in the pending store has changed (rand 77 instead of 5). -/
theorem nameNew_commits_to_busy_name :
    hasPending demoBusyState [100] = true ∧
    (demoBusyEnv.GetTxOfName [100]).isSome = true ∧
    nameAvailable demoBusyEnv [100] = false ∧
    mapFind demoBusyState.mapMyNameFirstUpdate [100] =
      some { rand := 5, vchData := [1], wtx := demoRevealTx 13 } ∧
    (nameNew demoBusyEnv demoBusyState 77 [100]).1.ok = true ∧
    (nameNew demoBusyEnv demoBusyState 77 [100]).2.2 =
      [Call.SendMoney (nameNewScript demoBusyEnv demoBusyState 77 [100]) 1000000 ""] ∧
    mapFind (nameNew demoBusyEnv demoBusyState 77 [100]).2.1.mapMyNameFirstUpdate [100] =
      some { rand := 77, vchData := [1], wtx := demoRevealTx 13 } := by
  decide

/-- Claim C9, amended. `nameNew` makes no check of its own on the name: for
every state and name it calls `SendMoney` first, and it fails exactly when
`SendMoney` returns an error, in which case `SendMoney` is the only call made
and the pending store and `mapMyNames` are unchanged. When `SendMoney`
succeeds the commitment is sent and the rand of the name is recorded, whatever
live transaction, pending operations or earlier entry the name has. -/
theorem nameNew_fails_iff_send_fails (env : Env) (s : State) (rand : Nat) (vchName : Vch) :
    ((nameNew env s rand vchName).1.ok = false ↔
      (nameNewSendMoney env s rand vchName).1 ≠ "") ∧
    (nameNew env s rand vchName).2.2.head? =
      some (Call.SendMoney (nameNewScript env s rand vchName) env.MIN_AMOUNT
        (nameNewSendMoney env s rand vchName).1) ∧
    ((nameNew env s rand vchName).1.ok = false →
      (nameNew env s rand vchName).2.2 =
        [Call.SendMoney (nameNewScript env s rand vchName) env.MIN_AMOUNT
          (nameNewSendMoney env s rand vchName).1] ∧
      (nameNew env s rand vchName).2.1.mapMyNameFirstUpdate = s.mapMyNameFirstUpdate ∧
      (nameNew env s rand vchName).2.1.mapMyNames = s.mapMyNames) ∧
    ((nameNew env s rand vchName).1.ok = true →
      ∃ e, mapFind (nameNew env s rand vchName).2.1.mapMyNameFirstUpdate vchName = some e ∧
        e.rand = rand) := by
  by_cases hok : (nameNewSendMoney env s rand vchName).1 = ""
  · have hsend := nameNew_of_send_ok env s rand vchName hok
    have hret : (nameNew env s rand vchName).1.ok = true := by rw [hsend.1]
    refine ⟨?_, by simp [nameNew, hok], ?_, ?_⟩
    · simp [hret, hok]
    · intro h; rw [hret] at h; exact absurd h (by decide)
    · intro _
      exact hsend.2.1
  · have hret : (nameNew env s rand vchName).1.ok = false := by simp [nameNew, hok]
    refine ⟨?_, by simp [nameNew, hok], ?_, ?_⟩
    · simp [hret, hok]
    · intro _; simp [nameNew, hok]
    · intro h; rw [hret] at h; exact absurd h (by decide)

/-- Claim C9, amended, at concrete inputs: `nameNew` fails in `demoFreshState`
when the amount exceeds the balance, leaving the pending store unchanged, and
succeeds for the busy name `d`, recording rand 77. -/
theorem nameNew_fails_iff_send_fails_witness :
    (nameNew demoPoorEnv demoFreshState 1234 [97]).2.1.mapMyNameFirstUpdate
      = demoFreshState.mapMyNameFirstUpdate ∧
    ∃ e, mapFind (nameNew demoBusyEnv demoBusyState 77 [100]).2.1.mapMyNameFirstUpdate [100]
      = some e ∧ e.rand = 77 :=
  ⟨((nameNew_fails_iff_send_fails demoPoorEnv demoFreshState 1234 [97]).2.2.1
      (by decide)).2.1,
   (nameNew_fails_iff_send_fails demoBusyEnv demoBusyState 77 [100]).2.2.2 (by decide)⟩

/-- Claim C10, counterexample. In `demoCommittedState` the prepare for the
name `a` succeeds with the data `[1, 2]` and then with the data `[9]`, and a
single prepare with `[9]` succeeds as well; the entry left by the two calls
differs from the entry left by the single call, because each call takes a
fresh key from the key pool for the reveal transaction it builds. -/
theorem prepare_twice_differs_from_once :
    (nameFirstUpdatePrepare demoEnv demoCommittedState [97] [1, 2]).1 = "" ∧
    (nameFirstUpdatePrepare demoEnv
      (nameFirstUpdatePrepare demoEnv demoCommittedState [97] [1, 2]).2.1 [97] [9]).1 = "" ∧
    (nameFirstUpdatePrepare demoEnv demoCommittedState [97] [9]).1 = "" ∧
    mapFind (nameFirstUpdatePrepare demoEnv
      (nameFirstUpdatePrepare demoEnv demoCommittedState [97] [1, 2]).2.1 [97]
        [9]).2.1.mapMyNameFirstUpdate [97] ≠
    mapFind (nameFirstUpdatePrepare demoEnv demoCommittedState [97]
      [9]).2.1.mapMyNameFirstUpdate [97] := by
  decide

/-- Claim C10, amended. After `nameFirstUpdatePrepare(name, d1)` succeeds and
then `nameFirstUpdatePrepare(name, d2)` succeeds, the entry of the name holds
the rand it had, the data `d2` and the transaction that the second call built
with `nameFirstUpdateCreateTx` (in the state left by the first call); the
store is the original one with that entry replaced, nothing of the first call
remaining in it; the names of the store and `mapMyNames` are unchanged, a
store without duplicate names holds exactly one entry for the name, and the
record persisted by the second call is (name, originating transaction id,
rand, `d2`, that transaction). -/
theorem prepare_twice_replaces (env : Env) (s : State) (vchName d1 d2 : Vch)
    (h1 : (nameFirstUpdatePrepare env s vchName d1).1 = "")
    (h2 : (nameFirstUpdatePrepare env (nameFirstUpdatePrepare env s vchName d1).2.1
      vchName d2).1 = "") :
    ∃ h e wtx2, mapFind s.mapMyNames vchName = some h ∧
      mapFind s.mapMyNameFirstUpdate vchName = some e ∧
      wtx2 = (nameFirstUpdateCreateTx env (nameFirstUpdatePrepare env s vchName d1).2.1
        CWalletTx.null vchName h e.rand d2).2.1 ∧
      (nameFirstUpdatePrepare env (nameFirstUpdatePrepare env s vchName d1).2.1
        vchName d2).2.1.mapMyNameFirstUpdate =
        mapReplace s.mapMyNameFirstUpdate vchName { rand := e.rand, vchData := d2, wtx := wtx2 } ∧
      mapFind (nameFirstUpdatePrepare env (nameFirstUpdatePrepare env s vchName d1).2.1
        vchName d2).2.1.mapMyNameFirstUpdate vchName =
        some { rand := e.rand, vchData := d2, wtx := wtx2 } ∧
      (nameFirstUpdatePrepare env (nameFirstUpdatePrepare env s vchName d1).2.1
        vchName d2).2.1.mapMyNameFirstUpdate.map Prod.fst =
        s.mapMyNameFirstUpdate.map Prod.fst ∧
      ((s.mapMyNameFirstUpdate.map Prod.fst).Nodup →
        ((nameFirstUpdatePrepare env (nameFirstUpdatePrepare env s vchName d1).2.1
          vchName d2).2.1.mapMyNameFirstUpdate.filter
            (fun p => decide (p.1 = vchName))).length = 1) ∧
      (nameFirstUpdatePrepare env (nameFirstUpdatePrepare env s vchName d1).2.1
        vchName d2).2.1.mapMyNames = s.mapMyNames ∧
      (nameFirstUpdatePrepare env (nameFirstUpdatePrepare env s vchName d1).2.1
        vchName d2).2.2 = [Call.WriteNameFirstUpdate vchName h e.rand d2 wtx2] := by
  obtain ⟨h, e, hn, he, _, hs1, _⟩ := prepare_success env s vchName d1 h1
  obtain ⟨h', e', hn', he', _, hs2, hc2⟩ := prepare_success env _ vchName d2 h2
  have hnames1 : (nameFirstUpdatePrepare env s vchName d1).2.1.mapMyNames = s.mapMyNames :=
    (prepare_keeps_rand env s vchName d1).1
  have hstore1 : (nameFirstUpdatePrepare env s vchName d1).2.1.mapMyNameFirstUpdate =
      mapReplace s.mapMyNameFirstUpdate vchName
        { e with
          vchData := d1
          wtx := (nameFirstUpdateCreateTx env s CWalletTx.null vchName h e.rand d1).2.1 } := by
    rw [hs1]
  have hh : h' = h := by
    rw [hnames1, hn] at hn'
    exact (Option.some.inj hn').symm
  subst hh
  have he1 : e' = { e with
      vchData := d1
      wtx := (nameFirstUpdateCreateTx env s CWalletTx.null vchName h' e.rand d1).2.1 } := by
    rw [hstore1, mapFind_mapReplace_self _ _ _ _ he] at he'
    exact (Option.some.inj he').symm
  have hrand : e'.rand = e.rand := by rw [he1]
  have hfinal : (nameFirstUpdatePrepare env (nameFirstUpdatePrepare env s vchName d1).2.1
      vchName d2).2.1.mapMyNameFirstUpdate =
      mapReplace s.mapMyNameFirstUpdate vchName
        { rand := e.rand, vchData := d2,
          wtx := (nameFirstUpdateCreateTx env (nameFirstUpdatePrepare env s vchName d1).2.1
            CWalletTx.null vchName h' e.rand d2).2.1 } := by
    rw [hs2]
    simp only []
    rw [hstore1, mapReplace_mapReplace, hrand]
  have hkeys := mapReplace_keys s.mapMyNameFirstUpdate vchName
    ({ rand := e.rand, vchData := d2,
       wtx := (nameFirstUpdateCreateTx env (nameFirstUpdatePrepare env s vchName d1).2.1
         CWalletTx.null vchName h' e.rand d2).2.1 } : PreparedNameFirstUpdate)
  refine ⟨h', e, _, hn, he, rfl, hfinal, ?_, ?_, ?_, ?_, ?_⟩
  · rw [hfinal]
    exact mapFind_mapReplace_self _ _ _ _ he
  · rw [hfinal, hkeys]
  · intro hnd
    rw [hfinal]
    exact one_entry_of_nodup _ vchName (by rw [hkeys]; exact hnd)
      (by rw [hkeys]; exact mapFind_mem_keys _ _ _ he)
  · rw [(prepare_keeps_rand env _ vchName d2).1, hnames1]
  · rw [hc2, hrand]

/-- Claim C10, amended, at `demoCommittedState`: the name `a` prepared with
the data `[1, 2]` and then with `[9]`. -/
theorem prepare_twice_replaces_witness :
    ∃ h e wtx2, mapFind demoCommittedState.mapMyNames [97] = some h ∧
      mapFind demoCommittedState.mapMyNameFirstUpdate [97] = some e ∧
      wtx2 = (nameFirstUpdateCreateTx demoEnv
        (nameFirstUpdatePrepare demoEnv demoCommittedState [97] [1, 2]).2.1
        CWalletTx.null [97] h e.rand [9]).2.1 ∧
      mapFind (nameFirstUpdatePrepare demoEnv
        (nameFirstUpdatePrepare demoEnv demoCommittedState [97] [1, 2]).2.1 [97]
          [9]).2.1.mapMyNameFirstUpdate [97] =
        some { rand := e.rand, vchData := [9], wtx := wtx2 } := by
  obtain ⟨h, e, wtx2, a1, a2, a3, _, a5, _⟩ :=
    prepare_twice_replaces demoEnv demoCommittedState [97] [1, 2] [9] (by decide) (by decide)
  exact ⟨h, e, wtx2, a1, a2, a3, a5⟩

/-! ## nameUpdate -/

/-- Claim C11. For every name, data and non-empty transfer address that
`AddressToHash160` accepts: when the name has no pending operations and has a
live transaction whose id is not in `wallet->mapWallet`, `nameUpdate` returns
"This coin is not in your wallet", submits no transaction and leaves the whole
state unchanged (key pool, pending store, `mapMyNames` and wallet transaction
map included). -/
theorem nameUpdate_coin_not_in_wallet (env : Env) (u : UpdateEnv) (s : State)
    (vchName vchValue : Vch) (transferToAddress : String) (hash160 : uint160)
    (tx : CWalletTx)
    (haddr : transferToAddress ≠ "")
    (hvalid : u.AddressToHash160 transferToAddress = some hash160)
    (hpend : hasPending s vchName = false)
    (hlive : env.GetTxOfName vchName = some tx)
    (hwallet : mapFind s.wallet.mapWallet (env.GetHash tx) = none) :
    (nameUpdate env u s vchName vchValue transferToAddress).1 = msgCoinNotInWallet ∧
    (nameUpdate env u s vchName vchValue transferToAddress).2.1 = s ∧
    (nameUpdate env u s vchName vchValue transferToAddress).2.2 = [] := by
  simp [nameUpdate, haddr, hvalid, hpend, hlive, hwallet]

/-- Claim C11 at a concrete input: the name `d` is live with a transaction
that is not in the wallet of `demoState`, and is transferred to the valid
address `N1`. -/
theorem nameUpdate_coin_not_in_wallet_witness :
    (nameUpdate demoBusyEnv demoUpdateEnv demoState [100] [7] "N1").1 = msgCoinNotInWallet ∧
    (nameUpdate demoBusyEnv demoUpdateEnv demoState [100] [7] "N1").2.1 = demoState ∧
    (nameUpdate demoBusyEnv demoUpdateEnv demoState [100] [7] "N1").2.2 = [] :=
  nameUpdate_coin_not_in_wallet demoBusyEnv demoUpdateEnv demoState [100] [7] "N1" 42
    (demoNameNewTx 9 90) (by decide) (by decide) (by decide) (by decide) (by decide)

/-! ## pollBalanceChanged -/

theorem checkBalanceChanged_cachedNumBlocks (env : Env) (p : PollEnv) (s : State)
    (m : WalletModel) :
    (checkBalanceChanged env p s m).1.cachedNumBlocks = m.cachedNumBlocks := by
  unfold checkBalanceChanged
  simp only []
  split <;> rfl

/-- Claim C12. When `nBestHeight` equals `cachedNumBlocks`,
`pollBalanceChanged` changes nothing, emits no signal and makes no call. When
they differ, the members afterwards are those `checkBalanceChanged` leaves
after `cachedNumBlocks` was set to `nBestHeight` (which it still is), the
signals are those of `checkBalanceChanged`, and the global state and the calls
are those of `sendPendingNameFirstUpdates` if `IsInitialBlockDownload()` is
false, while the global state is unchanged and no call is made if it is true.
Hence during the initial download the poller leaves the pending store alone
and makes no `CommitTransaction` or `EraseNameFirstUpdate` call. -/
theorem pollBalanceChanged_cases (env : Env) (p : PollEnv) (s : State) (m : WalletModel) :
    (p.nBestHeight = m.cachedNumBlocks →
      pollBalanceChanged env p s m = { model := m, state := s, signals := [], calls := [] }) ∧
    (p.nBestHeight ≠ m.cachedNumBlocks →
      (pollBalanceChanged env p s m).model =
        (checkBalanceChanged env p s { m with cachedNumBlocks := p.nBestHeight }).1 ∧
      (pollBalanceChanged env p s m).model.cachedNumBlocks = p.nBestHeight ∧
      (pollBalanceChanged env p s m).signals =
        (checkBalanceChanged env p s { m with cachedNumBlocks := p.nBestHeight }).2 ∧
      (p.IsInitialBlockDownload = false →
        (pollBalanceChanged env p s m).state = (sendPendingNameFirstUpdates env s).1 ∧
        (pollBalanceChanged env p s m).calls = (sendPendingNameFirstUpdates env s).2) ∧
      (p.IsInitialBlockDownload = true →
        (pollBalanceChanged env p s m).state = s ∧ (pollBalanceChanged env p s m).calls = [])) ∧
    (p.IsInitialBlockDownload = true →
      (pollBalanceChanged env p s m).state = s ∧ (pollBalanceChanged env p s m).calls = []) := by
  refine ⟨?_, ?_, ?_⟩
  · intro h
    simp [pollBalanceChanged, h]
  · intro h
    have hnum := checkBalanceChanged_cachedNumBlocks env p s
      { m with cachedNumBlocks := p.nBestHeight }
    cases hibd : p.IsInitialBlockDownload
    · simp [pollBalanceChanged, h, hibd, hnum]
    · simp [pollBalanceChanged, h, hibd, hnum]
  · intro hibd
    by_cases h : p.nBestHeight = m.cachedNumBlocks
    · simp [pollBalanceChanged, h]
    · simp [pollBalanceChanged, h, hibd]

/-- Claim C12 at concrete inputs, with the pending names of `demoState` and
the height 99 cached at best height 100: during the initial download the state
is unchanged and no call is made; after it the mature name `c` is finalized;
with the height 100 cached nothing happens. -/
theorem pollBalanceChanged_cases_witness :
    ((pollBalanceChanged demoEnv demoSyncingEnv demoState demoModel).state = demoState ∧
      (pollBalanceChanged demoEnv demoSyncingEnv demoState demoModel).calls = []) ∧
    (pollBalanceChanged demoEnv demoSyncedEnv demoState demoModel).calls =
      (sendPendingNameFirstUpdates demoEnv demoState).2 ∧
    (pollBalanceChanged demoEnv demoSyncedEnv demoState demoModel).model.cachedNumBlocks = 100 ∧
    pollBalanceChanged demoEnv demoSyncedEnv demoState { demoModel with cachedNumBlocks := 100 } =
      { model := { demoModel with cachedNumBlocks := 100 }, state := demoState,
        signals := [], calls := [] } :=
  ⟨(pollBalanceChanged_cases demoEnv demoSyncingEnv demoState demoModel).2.2 (by decide),
   (((pollBalanceChanged_cases demoEnv demoSyncedEnv demoState demoModel).2.1
      (by decide)).2.2.2.1 (by decide)).2,
   ((pollBalanceChanged_cases demoEnv demoSyncedEnv demoState demoModel).2.1 (by decide)).2.1,
   (pollBalanceChanged_cases demoEnv demoSyncedEnv demoState
      { demoModel with cachedNumBlocks := 100 }).1 (by decide)⟩

/-! ## The commitment hash -/

/-- The only error of the scan is the not-a-name_new message. -/
theorem scanNameOutputs_error (env : Env) :
    ∀ (outs : List CTxOut) (acc : Vch × Bool) (msg : String),
      scanNameOutputs env outs acc = Except.error msg → msg = msgNotNameNew := by
  intro outs
  induction outs with
  | nil => intro acc msg h; simp [scanNameOutputs] at h
  | cons out outs ih =>
    intro acc msg h
    cases hd : env.DecodeNameScript out.scriptPubKey with
    | none =>
      simp only [scanNameOutputs, hd] at h
      exact ih acc msg h
    | some r =>
      obtain ⟨op, vvch⟩ := r
      by_cases hop : op = env.OP_NAME_NEW
      · simp only [scanNameOutputs, hd, hop, ne_eq, not_true_eq_false, if_false] at h
        exact ih _ msg h
      · simp only [scanNameOutputs, hd, ne_eq, hop, not_false_eq_true, if_true] at h
        cases h
        rfl

/-- A successful `nameFirstUpdateCreateTx` found the commitment transaction in
the wallet and returns the transaction that `CreateTransactionWithInputTx`
built for the reveal script of the name, the rand and the value. -/
theorem createTx_success (env : Env) (s : State) (wtx0 : CWalletTx) (vchName : Vch)
    (wtxInHash : uint256) (rand : Nat) (vchValue : Vch)
    (hok : (nameFirstUpdateCreateTx env s wtx0 vchName wtxInHash rand vchValue).1 = "") :
    ∃ wtxIn, mapFind s.wallet.mapWallet wtxInHash = some wtxIn ∧
      (nameFirstUpdateCreateTx env s wtx0 vchName wtxInHash rand vchValue).2.1 =
        (env.CreateTransactionWithInputTx
          { s.wallet with keyPool := (env.GetKeyFromKeyPool s.wallet.keyPool).2 }
          (buildVecSend env
            ([ScriptItem.op env.OP_NAME_FIRSTUPDATE, ScriptItem.push vchName,
              ScriptItem.push (env.getvch rand), ScriptItem.push vchValue,
              ScriptItem.op env.OP_2DROP, ScriptItem.op env.OP_2DROP] ++
                env.SetBitcoinAddress (env.GetKeyFromKeyPool s.wallet.keyPool).1)
            env.MIN_AMOUNT (roundUpToCent env.CENT (env.GetNetworkFee env.pindexBestHeight)))
          wtxIn (env.IndexOfNameOutput wtxIn)
          { wtx0 with nVersion := env.NAMECOIN_TX_VERSION }).wtx := by
  cases hp : hasPending s vchName with
  | true =>
    have h1 : (nameFirstUpdateCreateTx env s wtx0 vchName wtxInHash rand vchValue).1
        = msgPending := by simp [nameFirstUpdateCreateTx, hp]
    rw [h1] at hok
    exact absurd hok (by decide)
  | false =>
    cases ha : env.GetTxOfName vchName with
    | some t =>
      have h1 : (nameFirstUpdateCreateTx env s wtx0 vchName wtxInHash rand vchValue).1
          = msgActive := by simp [nameFirstUpdateCreateTx, hp, ha]
      rw [h1] at hok
      exact absurd hok (by decide)
    | none =>
      cases hw : mapFind s.wallet.mapWallet wtxInHash with
      | none =>
        have h1 : (nameFirstUpdateCreateTx env s wtx0 vchName wtxInHash rand vchValue).1
            = msgNotInWallet := by simp [nameFirstUpdateCreateTx, hp, ha, hw]
        rw [h1] at hok
        exact absurd hok (by decide)
      | some wtxIn =>
        refine ⟨wtxIn, rfl, ?_⟩
        cases hs : scanNameOutputs env wtxIn.vout ([], false) with
        | error msg =>
          have hmsg := scanNameOutputs_error env _ _ _ hs
          subst hmsg
          have h1 : (nameFirstUpdateCreateTx env s wtx0 vchName wtxInHash rand vchValue).1
              = msgNotNameNew := by simp [nameFirstUpdateCreateTx, hp, ha, hw, hs]
          rw [h1] at hok
          exact absurd hok (by decide)
        | ok r =>
          obtain ⟨vh, found⟩ := r
          cases found with
          | false =>
            have h1 : (nameFirstUpdateCreateTx env s wtx0 vchName wtxInHash rand vchValue).1
                = msgNotNameTx := by simp [nameFirstUpdateCreateTx, hp, ha, hw, hs]
            rw [h1] at hok
            exact absurd hok (by decide)
          | true =>
            by_cases hh : env.uint160OfVch vh = env.Hash160 (env.getvch rand ++ vchName)
            · simp only [nameFirstUpdateCreateTx, hp, ha, hw, hs, hh]
              simp only [Bool.false_eq_true, if_false, ne_eq, not_true_eq_false, Bool.not_true]
              split
              · split <;> rfl
              · split <;> rfl
            · have h1 : (nameFirstUpdateCreateTx env s wtx0 vchName wtxInHash rand vchValue).1
                  = msgDifferentRand := by simp [nameFirstUpdateCreateTx, hp, ha, hw, hs, hh]
              rw [h1] at hok
              exact absurd hok (by decide)

/-- A run of `nameFirstUpdateCreateTx` that returns none of the six messages
of its checks has found the commitment transaction in the wallet and called
`CreateTransactionWithInputTx` with the outputs `vecSend` built from the
reveal script, `MIN_AMOUNT` and the rounded network fee; the transaction it
returns is the one that call produced. -/
theorem createTx_past_checks (env : Env) (s : State) (wtx0 : CWalletTx) (vchName : Vch)
    (wtxInHash : uint256) (rand : Nat) (vchValue : Vch)
    (hpast : (nameFirstUpdateCreateTx env s wtx0 vchName wtxInHash rand vchValue).1 ∉
      [msgPending, msgActive, msgNotInWallet, msgNotNameNew, msgNotNameTx,
        msgDifferentRand]) :
    ∃ wtxIn, mapFind s.wallet.mapWallet wtxInHash = some wtxIn ∧
      (nameFirstUpdateCreateTx env s wtx0 vchName wtxInHash rand vchValue).2.1 =
        (env.CreateTransactionWithInputTx
          { s.wallet with keyPool := (env.GetKeyFromKeyPool s.wallet.keyPool).2 }
          (buildVecSend env
            ([ScriptItem.op env.OP_NAME_FIRSTUPDATE, ScriptItem.push vchName,
              ScriptItem.push (env.getvch rand), ScriptItem.push vchValue,
              ScriptItem.op env.OP_2DROP, ScriptItem.op env.OP_2DROP] ++
                env.SetBitcoinAddress (env.GetKeyFromKeyPool s.wallet.keyPool).1)
            env.MIN_AMOUNT (roundUpToCent env.CENT (env.GetNetworkFee env.pindexBestHeight)))
          wtxIn (env.IndexOfNameOutput wtxIn)
          { wtx0 with nVersion := env.NAMECOIN_TX_VERSION }).wtx := by
  cases hp : hasPending s vchName with
  | true =>
    have h1 : (nameFirstUpdateCreateTx env s wtx0 vchName wtxInHash rand vchValue).1
        = msgPending := by simp [nameFirstUpdateCreateTx, hp]
    rw [h1] at hpast
    exact absurd (by simp) hpast
  | false =>
    cases ha : env.GetTxOfName vchName with
    | some t =>
      have h1 : (nameFirstUpdateCreateTx env s wtx0 vchName wtxInHash rand vchValue).1
          = msgActive := by simp [nameFirstUpdateCreateTx, hp, ha]
      rw [h1] at hpast
      exact absurd (by simp) hpast
    | none =>
      cases hw : mapFind s.wallet.mapWallet wtxInHash with
      | none =>
        have h1 : (nameFirstUpdateCreateTx env s wtx0 vchName wtxInHash rand vchValue).1
            = msgNotInWallet := by simp [nameFirstUpdateCreateTx, hp, ha, hw]
        rw [h1] at hpast
        exact absurd (by simp) hpast
      | some wtxIn =>
        refine ⟨wtxIn, rfl, ?_⟩
        cases hs : scanNameOutputs env wtxIn.vout ([], false) with
        | error msg =>
          have hmsg := scanNameOutputs_error env _ _ _ hs
          subst hmsg
          have h1 : (nameFirstUpdateCreateTx env s wtx0 vchName wtxInHash rand vchValue).1
              = msgNotNameNew := by simp [nameFirstUpdateCreateTx, hp, ha, hw, hs]
          rw [h1] at hpast
          exact absurd (by simp) hpast
        | ok r =>
          obtain ⟨vh, found⟩ := r
          cases found with
          | false =>
            have h1 : (nameFirstUpdateCreateTx env s wtx0 vchName wtxInHash rand vchValue).1
                = msgNotNameTx := by simp [nameFirstUpdateCreateTx, hp, ha, hw, hs]
            rw [h1] at hpast
            exact absurd (by simp) hpast
          | true =>
            by_cases hh : env.uint160OfVch vh = env.Hash160 (env.getvch rand ++ vchName)
            · simp only [nameFirstUpdateCreateTx, hp, ha, hw, hs, hh]
              simp only [Bool.false_eq_true, if_false, ne_eq, not_true_eq_false, Bool.not_true]
              split
              · split <;> rfl
              · split <;> rfl
            · have h1 : (nameFirstUpdateCreateTx env s wtx0 vchName wtxInHash rand vchValue).1
                  = msgDifferentRand := by simp [nameFirstUpdateCreateTx, hp, ha, hw, hs, hh]
              rw [h1] at hpast
              exact absurd (by simp) hpast

/-- Claim C7. Whenever `nameFirstUpdateCreateTx` gets past its checks (it
returns none of their six messages), the outputs it hands to
`CreateTransactionWithInputTx` are the reveal output of value `MIN_AMOUNT`
followed, unless the fee component is 0, by one `OP_RETURN` output carrying
the fee component `nNetFee`; and for a non-negative network fee
`f = GetNetworkFee(pindexBest->nHeight)` with `f + CENT - 1` within `int64`
that component is the least multiple of `CENT` that is at least `f`: a
multiple of `CENT`, at least `f`, below `f + CENT`, not above any multiple of
`CENT` that is at least `f`, equal to `f` when `f` is a multiple of `CENT`,
and 0 exactly when `f` is 0. -/
theorem createTx_fee_rounds_up_to_cent (env : Env) (s : State) (wtx0 : CWalletTx)
    (vchName : Vch) (wtxInHash : uint256) (rand : Nat) (vchValue : Vch)
    (hC : 0 < env.CENT) (hf : 0 ≤ env.GetNetworkFee env.pindexBestHeight)
    (hov : env.GetNetworkFee env.pindexBestHeight + env.CENT - 1 ≤ 9223372036854775807)
    (hpast : (nameFirstUpdateCreateTx env s wtx0 vchName wtxInHash rand vchValue).1 ∉
      [msgPending, msgActive, msgNotInWallet, msgNotNameNew, msgNotNameTx,
        msgDifferentRand]) :
    ∃ wtxIn nNetFee,
      mapFind s.wallet.mapWallet wtxInHash = some wtxIn ∧
      (nameFirstUpdateCreateTx env s wtx0 vchName wtxInHash rand vchValue).2.1 =
        (env.CreateTransactionWithInputTx
          { s.wallet with keyPool := (env.GetKeyFromKeyPool s.wallet.keyPool).2 }
          (([ScriptItem.op env.OP_NAME_FIRSTUPDATE, ScriptItem.push vchName,
              ScriptItem.push (env.getvch rand), ScriptItem.push vchValue,
              ScriptItem.op env.OP_2DROP, ScriptItem.op env.OP_2DROP] ++
                env.SetBitcoinAddress (env.GetKeyFromKeyPool s.wallet.keyPool).1,
            env.MIN_AMOUNT) ::
            (if nNetFee ≠ 0 then [([ScriptItem.op env.OP_RETURN], nNetFee)] else []))
          wtxIn (env.IndexOfNameOutput wtxIn)
          { wtx0 with nVersion := env.NAMECOIN_TX_VERSION }).wtx ∧
      env.CENT ∣ nNetFee ∧
      env.GetNetworkFee env.pindexBestHeight ≤ nNetFee ∧
      nNetFee < env.GetNetworkFee env.pindexBestHeight + env.CENT ∧
      (∀ m, env.CENT ∣ m → env.GetNetworkFee env.pindexBestHeight ≤ m → nNetFee ≤ m) ∧
      (env.CENT ∣ env.GetNetworkFee env.pindexBestHeight →
        nNetFee = env.GetNetworkFee env.pindexBestHeight) ∧
      (nNetFee = 0 ↔ env.GetNetworkFee env.pindexBestHeight = 0) := by
  obtain ⟨wtxIn, hw, hwtx⟩ := createTx_past_checks env s wtx0 vchName wtxInHash rand vchValue
    hpast
  have hr := fee_rounds_up_to_cent env (env.GetNetworkFee env.pindexBestHeight) [] 0 hC hf hov
  exact ⟨wtxIn, roundUpToCent env.CENT (env.GetNetworkFee env.pindexBestHeight), hw, hwtx,
    hr.1, hr.2.1, hr.2.2.1, hr.2.2.2.1, hr.2.2.2.2.1, hr.2.2.2.2.2.1⟩

/-- Claim C7 at a concrete input: the reveal for the name `a` built in
`demoCommittedState` with `CENT = 1000000` and a network fee of 1500000; the
transaction built has the reveal output of value 1000000 and a fee output of
value 2000000. -/
theorem createTx_fee_rounds_up_to_cent_witness :
    (∃ wtxIn nNetFee,
      mapFind demoCommittedState.wallet.mapWallet 1135584 = some wtxIn ∧
      (nameFirstUpdateCreateTx demoFeeEnv demoCommittedState CWalletTx.null [97] 1135584 1234
        [8]).2.1 =
        (demoFeeEnv.CreateTransactionWithInputTx
          { demoCommittedState.wallet with
            keyPool := (demoFeeEnv.GetKeyFromKeyPool demoCommittedState.wallet.keyPool).2 }
          (([ScriptItem.op demoFeeEnv.OP_NAME_FIRSTUPDATE, ScriptItem.push [97],
              ScriptItem.push (demoFeeEnv.getvch 1234), ScriptItem.push [8],
              ScriptItem.op demoFeeEnv.OP_2DROP, ScriptItem.op demoFeeEnv.OP_2DROP] ++
                demoFeeEnv.SetBitcoinAddress
                  (demoFeeEnv.GetKeyFromKeyPool demoCommittedState.wallet.keyPool).1,
            demoFeeEnv.MIN_AMOUNT) ::
            (if nNetFee ≠ 0 then [([ScriptItem.op demoFeeEnv.OP_RETURN], nNetFee)] else []))
          wtxIn (demoFeeEnv.IndexOfNameOutput wtxIn)
          { CWalletTx.null with nVersion := demoFeeEnv.NAMECOIN_TX_VERSION }).wtx ∧
      demoFeeEnv.CENT ∣ nNetFee ∧ 1500000 ≤ nNetFee ∧ nNetFee < 1500000 + demoFeeEnv.CENT) ∧
    (nameFirstUpdateCreateTx demoFeeEnv demoCommittedState CWalletTx.null [97] 1135584 1234
      [8]).1 = "" ∧
    (nameFirstUpdateCreateTx demoFeeEnv demoCommittedState CWalletTx.null [97] 1135584 1234
      [8]).2.1.vout.map (fun o => o.nValue) = [1000000, 2000000] := by
  obtain ⟨wtxIn, nNetFee, h1, h2, h3, h4, h5, _⟩ :=
    createTx_fee_rounds_up_to_cent demoFeeEnv demoCommittedState CWalletTx.null [97] 1135584
      1234 [8] (by decide) (by decide) (by decide) (by decide)
  exact ⟨⟨wtxIn, nNetFee, h1, h2, h3, h4, h5⟩, by decide, by decide⟩

theorem mem_mapReplace {K V : Type} [DecidableEq K] (m : List (K × V)) (k : K) (v : V)
    (x : K × V) (hx : x ∈ mapReplace m k v) : x ∈ m ∨ x = (k, v) := by
  induction m with
  | nil => simp [mapReplace] at hx
  | cons y m ih =>
    obtain ⟨k', v'⟩ := y
    by_cases h1 : k' = k
    · subst h1
      simp only [mapReplace, if_true, List.mem_cons] at hx
      rcases hx with h | h
      · exact Or.inr h
      · exact Or.inl (List.mem_cons_of_mem _ h)
    · simp only [mapReplace, h1, if_false, List.mem_cons] at hx
      rcases hx with h | h
      · exact Or.inl (h ▸ List.mem_cons_self _ _)
      · rcases ih h with h2 | h2
        · exact Or.inl (List.mem_cons_of_mem _ h2)
        · exact Or.inr h2

theorem mem_mapSet {K V : Type} [DecidableEq K] (lt : K → K → Bool) (m : List (K × V))
    (k : K) (v : V) (x : K × V) (hx : x ∈ mapSet lt m k v) : x ∈ m ∨ x = (k, v) := by
  induction m with
  | nil =>
    simp only [mapSet, List.mem_singleton] at hx
    exact Or.inr hx
  | cons y m ih =>
    obtain ⟨k', v'⟩ := y
    by_cases h1 : k' = k
    · simp only [mapSet, h1, if_true, List.mem_cons] at hx
      rcases hx with h | h
      · exact Or.inr h
      · exact Or.inl (List.mem_cons_of_mem _ h)
    · by_cases h2 : lt k k' = true
      · simp only [mapSet, h1, h2, if_false, if_true, List.mem_cons] at hx
        rcases hx with h | h | h
        · exact Or.inr h
        · exact Or.inl (h ▸ List.mem_cons_self _ _)
        · exact Or.inl (List.mem_cons_of_mem _ h)
      · simp only [mapSet, h1, h2, if_false, Bool.false_eq_true, List.mem_cons] at hx
        rcases hx with h | h
        · exact Or.inl (h ▸ List.mem_cons_self _ _)
        · rcases ih h with h3 | h3
          · exact Or.inl (List.mem_cons_of_mem _ h3)
          · exact Or.inr h3

theorem mapFind_mem {K V : Type} [DecidableEq K] (m : List (K × V)) (k : K) (v : V)
    (h : mapFind m k = some v) : (k, v) ∈ m := by
  induction m with
  | nil => simp [mapFind] at h
  | cons y m ih =>
    obtain ⟨k', v'⟩ := y
    by_cases h1 : k' = k
    · simp only [mapFind, h1, if_true, Option.some.injEq] at h
      simp [h1, h]
    · simp only [mapFind, h1, if_false] at h
      exact List.mem_cons_of_mem _ (ih h)

/-- The invariant is kept by `nameFirstUpdatePrepare`, whatever its outcome. -/
theorem prepare_keeps_consistent (env : Env) (s : State) (vchName vchValue : Vch)
    (hc : StoreConsistent env s) :
    StoreConsistent env (nameFirstUpdatePrepare env s vchName vchValue).2.1 := by
  by_cases hok : (nameFirstUpdatePrepare env s vchName vchValue).1 = ""
  · obtain ⟨h, e, hn, he, hcr, hst, _⟩ := prepare_success env s vchName vchValue hok
    intro k e' hmem hwtx
    rw [hst] at hmem ⊢
    rcases mem_mapReplace _ _ _ _ hmem with h1 | h1
    · exact hc k e' h1 hwtx
    · cases h1
      exact ⟨h, s, hn, hcr, rfl⟩
  · have hnames := (prepare_keeps_rand env s vchName vchValue).1
    have hstore : (nameFirstUpdatePrepare env s vchName vchValue).2.1.mapMyNameFirstUpdate
        = s.mapMyNameFirstUpdate := by
      cases h1 : mapFind s.mapMyNames vchName with
      | none => simp [nameFirstUpdatePrepare, h1]
      | some h =>
        cases h2 : mapFind s.mapMyNameFirstUpdate vchName with
        | none => simp [nameFirstUpdatePrepare, h1, h2]
        | some e =>
          have h3 : (nameFirstUpdateCreateTx env s CWalletTx.null vchName h e.rand vchValue).1
              ≠ "" := by
            intro h3
            exact hok (by simp [nameFirstUpdatePrepare, h1, h2, h3])
          simp [nameFirstUpdatePrepare, h1, h2, h3]
    intro k e' hmem hwtx
    rw [hstore] at hmem
    rw [hnames]
    exact hc k e' hmem hwtx

/-- The loop only removes entries. -/
theorem sendLoop_kept_subset (env : Env) (names : List (Vch × uint256)) :
    ∀ (l : List (Vch × PreparedNameFirstUpdate)) (skip : Bool)
      (mw : List (uint256 × CWalletTx)) (x : Vch × PreparedNameFirstUpdate),
      x ∈ (sendLoop env names skip l mw).kept → x ∈ l := by
  intro l
  induction l with
  | nil => intro skip mw x hx; cases skip <;> simp [sendLoop] at hx
  | cons y rest ih =>
    intro skip mw x hx
    obtain ⟨k, e⟩ := y
    cases skip with
    | true =>
      simp only [sendLoop, List.mem_cons] at hx
      rcases hx with h | h
      · exact h ▸ List.mem_cons_self _ _
      · exact List.mem_cons_of_mem _ (ih _ _ _ h)
    | false =>
      cases h1 : mapFind names k with
      | none =>
        simp only [sendLoop, h1] at hx
        exact List.mem_cons_of_mem _ (ih _ _ _ hx)
      | some h' =>
        cases h2 : mapFind mw h' with
        | none =>
          simp only [sendLoop, h1, h2] at hx
          exact List.mem_cons_of_mem _ (ih _ _ _ hx)
        | some wtxIn =>
          by_cases h3 : env.GetDepthInMainChain wtxIn < env.MIN_FIRSTUPDATE_DEPTH
          · simp only [sendLoop, h1, h2, h3, if_true, List.mem_cons] at hx
            rcases hx with h | h
            · exact h ▸ List.mem_cons_self _ _
            · exact List.mem_cons_of_mem _ (ih _ _ _ h)
          · simp only [sendLoop, h1, h2, h3, if_false] at hx
            exact List.mem_cons_of_mem _ (ih _ _ _ hx)

/-- The loop only removes entries, further passes included. -/
theorem sendPasses_kept_subset (env : Env) (names : List (Vch × uint256)) :
    ∀ (fuel : Nat) (before rest : List (Vch × PreparedNameFirstUpdate))
      (mw : List (uint256 × CWalletTx)) (x : Vch × PreparedNameFirstUpdate),
      x ∈ (sendPasses env names fuel before rest mw).kept → x ∈ before ++ rest := by
  intro fuel
  induction fuel with
  | zero =>
    intro before rest mw x hx
    simp only [sendPasses] at hx
    rcases List.mem_append.mp hx with h | h
    · exact List.mem_append_left _ h
    · exact List.mem_append_right _ (sendLoop_kept_subset env names _ _ _ _ h)
  | succ n ih =>
    intro before rest mw x hx
    have hsub : ∀ y, y ∈ before ++ (sendLoop env names false rest mw).kept →
        y ∈ before ++ rest := by
      intro y hy
      rcases List.mem_append.mp hy with h | h
      · exact List.mem_append_left _ h
      · exact List.mem_append_right _ (sendLoop_kept_subset env names _ _ _ _ h)
    rw [sendPasses] at hx
    by_cases hinc : Call.IncrementEnd ∈ (sendLoop env names false rest mw).calls
    · by_cases hempty : before ++ (sendLoop env names false rest mw).kept = []
      · simp [hinc, hempty] at hx
      · simp only [hinc, hempty, if_true, if_false] at hx
        have h1 := ih _ _ _ x hx
        rw [List.take_append_drop] at h1
        exact hsub x h1
    · simp only [hinc, if_false] at hx
      exact hsub x hx

/-- The invariant is kept by `sendPendingNameFirstUpdates`. -/
theorem sendPending_keeps_consistent (env : Env) (s : State) (hc : StoreConsistent env s) :
    StoreConsistent env (sendPendingNameFirstUpdates env s).1 := by
  intro k e hmem hwtx
  have hmem' := sendPasses_kept_subset env _ _ _ _ _ _ hmem
  exact hc k e (by simpa using hmem') hwtx

/-- The invariant is kept by `nameNew` for a name that has no stored reveal
transaction in the pending store. -/
theorem nameNew_keeps_consistent (env : Env) (s : State) (rand : Nat) (vchName : Vch)
    (hc : StoreConsistent env s)
    (hfresh : ∀ e, (vchName, e) ∈ s.mapMyNameFirstUpdate → e.wtx = CWalletTx.null) :
    StoreConsistent env (nameNew env s rand vchName).2.1 := by
  by_cases hsend : (nameNewSendMoney env s rand vchName).1 = ""
  · have hst : (nameNew env s rand vchName).2.1 =
        (nameFirstUpdatePrepare env (nameNewRecord env s rand vchName) vchName []).2.1 := by
      simp [nameNew, hsend]
    rw [hst]
    apply prepare_keeps_consistent
    intro k e hmem hwtx
    have hmem' : (k, e) ∈ setRand s.mapMyNameFirstUpdate vchName rand := hmem
    by_cases hk : k = vchName
    · subst hk
      exfalso
      apply hwtx
      unfold setRand at hmem'
      cases hf : mapFind s.mapMyNameFirstUpdate k with
      | none =>
        rw [hf] at hmem'
        rcases mem_mapSet _ _ _ _ _ hmem' with h1 | h1
        · exact hfresh e h1
        · cases h1; rfl
      | some e0 =>
        rw [hf] at hmem'
        rcases mem_mapReplace _ _ _ _ hmem' with h1 | h1
        · exact hfresh e h1
        · cases h1
          exact hfresh e0 (mapFind_mem _ _ _ hf)
    · have hold : (k, e) ∈ s.mapMyNameFirstUpdate := by
        unfold setRand at hmem'
        cases hf : mapFind s.mapMyNameFirstUpdate vchName with
        | none =>
          rw [hf] at hmem'
          rcases mem_mapSet _ _ _ _ _ hmem' with h1 | h1
          · exact h1
          · exact absurd (congrArg Prod.fst h1) hk
        | some e0 =>
          rw [hf] at hmem'
          rcases mem_mapReplace _ _ _ _ hmem' with h1 | h1
          · exact h1
          · exact absurd (congrArg Prod.fst h1) hk
      obtain ⟨h, s', hn, hcr⟩ := hc k e hold hwtx
      refine ⟨h, s', ?_, hcr⟩
      show mapFind (mapSet vchLt s.mapMyNames vchName _) k = some h
      rw [mapFind_mapSet_ne _ _ _ _ _ (fun heq => hk heq.symm)]
      exact hn
  · intro k e hmem hwtx
    have hst : (nameNew env s rand vchName).2.1 = { s with wallet := (nameNewSendMoney env s rand vchName).2.2 } := by
      simp [nameNew, hsend]
    rw [hst] at hmem ⊢
    exact hc k e hmem hwtx


/-- The invariant holds in `demoReconfiguredState`. -/
theorem demoReconfigured_consistent : StoreConsistent demoEnv demoReconfiguredState := by
  intro k e hmem hwtx
  have hstore : demoReconfiguredState.mapMyNameFirstUpdate =
      [([97], { rand := 1234, vchData := [1, 2], wtx := demoStaleReveal })] := by decide
  rw [hstore] at hmem
  have hke : (k, e) = ([97], { rand := 1234, vchData := [1, 2], wtx := demoStaleReveal }) := by
    simpa using hmem
  cases hke
  exact ⟨1135584, demoCommittedState, by decide, by decide, rfl⟩

/-- Claim C14, evaluated at `demoReconfiguredState`. The invariant holds
before the call: the entry of `a` holds rand 1234, data `[1, 2]` and the reveal
built from them and from the commitment 1135584 recorded in `mapMyNames`.
`nameNew` for `a` with the fresh rand 99 succeeds and its automatic prepare
fails on the pending operation. Afterwards `mapMyNames` records the new
commitment 1915408 and the entry has the rand 99, but still the data `[1, 2]`
and the old reveal transaction, which spends 1135584: the data is not empty, a
reveal of the earlier registration is left over, and the invariant no longer
holds. -/
theorem nameNew_leaves_stale_reveal :
    StoreConsistent demoEnv demoReconfiguredState ∧
    mapFind demoReconfiguredState.mapMyNameFirstUpdate [97] =
      some { rand := 1234, vchData := [1, 2], wtx := demoStaleReveal } ∧
    mapFind demoReconfiguredState.mapMyNames [97] = some 1135584 ∧
    (nameNew demoEnv demoReconfiguredState 99 [97]).1.ok = true ∧
    (nameFirstUpdatePrepare demoEnv (nameNewRecord demoEnv demoReconfiguredState 99 [97])
      [97] []).1 = msgPending ∧
    mapFind (nameNew demoEnv demoReconfiguredState 99 [97]).2.1.mapMyNames [97] =
      some 1915408 ∧
    mapFind (nameNew demoEnv demoReconfiguredState 99 [97]).2.1.mapMyNameFirstUpdate [97] =
      some { rand := 99, vchData := [1, 2], wtx := demoStaleReveal } ∧
    demoStaleReveal ≠ CWalletTx.null ∧
    demoStaleReveal.vin = [{ prevoutHash := 1135584, prevoutN := 0 }] ∧
    ¬ StoreConsistent demoEnv (nameNew demoEnv demoReconfiguredState 99 [97]).2.1 := by
  refine ⟨demoReconfigured_consistent, by decide, by decide, by decide, by decide, by decide,
    by decide, by decide, by decide, ?_⟩
  intro hc
  obtain ⟨h, s', _, hok, hwtx⟩ := hc [97]
    { rand := 99, vchData := [1, 2], wtx := demoStaleReveal } (by decide) (by decide)
  obtain ⟨wtxIn, _, hshape⟩ := createTx_success demoEnv s' CWalletTx.null [97] h 99 [1, 2] hok
  rw [hshape] at hwtx
  have h1 := congrArg revealScriptHead hwtx
  have h2 : revealScriptHead demoStaleReveal =
      some [ScriptItem.op 2, ScriptItem.push [97], ScriptItem.push (demoEnv.getvch 1234)] := by
    decide
  rw [h2] at h1
  have h3 : some [ScriptItem.op 2, ScriptItem.push [97], ScriptItem.push (demoEnv.getvch 99)] =
      some [ScriptItem.op 2, ScriptItem.push [97], ScriptItem.push (demoEnv.getvch 1234)] := h1
  exact absurd h3 (by decide)

end Namecoin
